import Mathlib

/-
  Shallow embedding of the Celestia-Distribution dashboard's core logic:
  sheet normalization (src/sheet_processors/sheet_processors.py), workbook
  loading (src/loaders/excel_loader.py), period aggregation
  (src/app.py, display_yearly_data / display_quarterly_data) and the
  issuance-ratio derivation (src/plots/plots.py, create_issuance_ratio_plot).

  Modelling conventions:
  - Spreadsheet cells are `Cell`: NaN/NaT (`empty`), numbers (exact rationals,
    standing in for the binary doubles pandas uses; all concrete values in this
    development are exactly representable in both), strings, and datetimes
    (`dt day timeOfDay`).
  - A pandas DataFrame is column-major: a list of (label, cells) pairs, the
    label itself a `Cell` because the processors assign a data row as header.
  - Fallible pandas operations (iloc on empty frames, KeyError lookups,
    unparsable datetimes) are `Except String`, carrying the message the
    corresponding Python exception produces (paraphrased without quote
    characters where the original message quotes identifiers).
-/

namespace CD

deriving instance DecidableEq for Except

/-- Prefix test on character lists (first argument is the candidate prefix). -/
def chPre : List Char → List Char → Bool
  | [], _ => true
  | _ :: _, [] => false
  | a :: n, b :: h => a == b && chPre n h

/-- Substring test on character lists: does the first list occur inside the second. -/
def chSub : List Char → List Char → Bool
  | n, [] => n.isEmpty
  | n, b :: h => chPre n (b :: h) || chSub n h

/-- Python's `pat in s` substring containment on strings. -/
def hasSub (s pat : String) : Bool := chSub pat.data s.data

def sMonth : String := "Month"
def sDate : String := "Date"
def sValue : String := "Value"
def sCumulative : String := "Cumulative"
def sCumulativeSp : String := "Cumulative "
def sCumulativeEmission : String := "Cumulative Emission"
def sCircSup : String := "Circulating Supply %"
def sRelIssA : String := "Relative Issuance"
def sRelIssP : String := "Relative Issuance %"
def sAbsIssA : String := "Absolute issuance"
def sAbsIssP : String := "Absolute issuance %"
def sIssRatio : String := "Issuance Ratio"
def sPct : String := "%"
def sNanS : String := "nan"
def sTimestampPre : String := "Timestamp "
def sUnlock : String := "Unlock"
def sOverview : String := "Overview"
def sSupply : String := "Supply"
def sIssuance : String := "Issuance"
def sRelYield : String := "Relative-Yield"
def sAbsYield : String := "Absolute-Yield"

/-- pandas IndexError message for a positional indexer on an empty frame. -/
def sIlocErr : String := "single positional indexer is out-of-bounds"
/-- pandas IndexError message for `columns[0]` on an empty column Index. -/
def sIdx0Err : String := "index 0 is out of bounds for axis 0 with size 0"
/-- KeyError raised by a label lookup with no matching column (message abstracted). -/
def sKeyErr : String := "KeyError"
/-- AttributeError raised by `.dtype` on the DataFrame a duplicate-label lookup returns. -/
def sDupLblErr : String := "DataFrame object has no attribute dtype"
/-- Error raised by pd.to_datetime on an unparsable string. -/
def sParseErr : String := "could not convert string to datetime"
/-- ValueError raised when an f-string float format is applied to a non-number. -/
def sFmtErr : String := "Unknown format code f for non-float object"
/-- Prefix of the message `ExcelDataLoader.load_data` reports via st.error. -/
def sLoadPre : String := "Error loading Excel file: "

/-- Round-half-even to an integer, as Python's float formatting and numpy's
`round` do (exact on the rationals this development applies it to). -/
def rhe (q : ℚ) : ℤ :=
  let f := q.floor
  let r := q - (f : ℚ)
  if r < 1/2 then f
  else if (1 : ℚ)/2 < r then f + 1
  else if f % 2 = 0 then f else f + 1

/-- Python's `str(x)` for a float with a terminating decimal expansion of at
most 6 digits (every value this development renders has at most 3): integer
part, a dot, then the fractional digits with trailing zeros stripped but at
least one digit kept, so `str(8.0) = "8.0"` and `str(8.25) = "8.25"`. -/
def decStr (q : ℚ) : String :=
  let sgn := if q < 0 then "-" else ""
  let a := if q < 0 then -q else q
  let ip := a.floor
  let m := ((a - (ip : ℚ)) * 1000000).floor.toNat
  let ds := toString m
  let padded := List.replicate (6 - ds.length) '0' ++ ds.data
  let frDigits := (padded.reverse.dropWhile (· == '0')).reverse
  let fr := if frDigits.isEmpty then "0" else String.mk frDigits
  sgn ++ toString ip ++ "." ++ fr

/-- Python's `f"{x:.0f}"`: round-half-even to zero decimals, no decimal point. -/
def pyFmt0 (q : ℚ) : String := toString (rhe q)

/-- Rendering of `round(x, 3)` followed by `astype(str)`: the rounded value in
milli-units is `rhe (1000*x)`, rendered as a decimal. -/
def round3Str (q : ℚ) : String := decStr ((rhe (1000 * q) : ℚ) / 1000)

/-- A spreadsheet cell: NaN/NaT, a number, a string, or a datetime
(day index from the epoch plus a time-of-day fraction). -/
inductive Cell where
  | empty : Cell
  | num : ℚ → Cell
  | str : String → Cell
  | dt : ℤ → ℚ → Cell
deriving DecidableEq

/-- Is the cell NaN/NaT (what pandas dropna looks for). -/
def Cell.isEmptyC : Cell → Bool
  | .empty => true
  | _ => false

/-- Python's `str(cell)` as used in f-strings and substring tests. The
datetime rendering is abstracted (no claim inspects it). -/
def cellToStr : Cell → String
  | .str s => s
  | .num q => decStr q
  | .empty => sNanS
  | .dt d _ => sTimestampPre ++ toString d

/-- The rename UnlockSheetProcessor.process applies to a repeated header
label: `"Cumulative " + label`, except `"Cumulative"` itself becomes
`"Cumulative Emission"` (sheet_processors.py lines 20-25). -/
def renameCell (c : Cell) : Cell :=
  if c = .str sCumulative then .str sCumulativeEmission
  else .str (sCumulativeSp ++ cellToStr c)

/-- The duplicate-handling loop of UnlockSheetProcessor.process (lines 18-27):
`seen` collects labels at their first occurrence; a label already seen is
renamed (and the renamed form is not recorded in `seen`). -/
def renameDupsAux : List Cell → List Cell → List Cell
  | _, [] => []
  | seen, c :: rest =>
      if c ∈ seen then renameCell c :: renameDupsAux seen rest
      else c :: renameDupsAux (c :: seen) rest

def renameDups (ls : List Cell) : List Cell := renameDupsAux [] ls

/-- A DataFrame, column-major: (label, cells) per column, all cell lists of
equal length for frames read from a sheet. -/
abbrev DF := List (Cell × List Cell)

/-- `df.iloc[0]` row extraction used to build header rows: `none` models the
IndexError pandas raises when the frame has no first row. -/
def headerOf (raw : List (List Cell)) : Option (List Cell) := raw.mapM List.head?

/-- `"Date" in str(col)` (sheet_processors.py line 34). -/
def isDateLbl (c : Cell) : Bool := hasSub (cellToStr c) sDate

/-- Lines 33-36 of UnlockSheetProcessor.process: collect the labels containing
"Date" and, when there are at least two, `df.drop(columns=date_columns[1:])` —
a drop BY LABEL, removing every column whose label occurs in the tail of the
date-label list. -/
def dropDupDates (cols : DF) : DF :=
  let dl := (cols.filter (fun p => isDateLbl p.1)).map (fun p => p.1)
  if dl.length > 1 then cols.filter (fun p => decide (p.1 ∉ dl.drop 1)) else cols

/-- One cell of `pd.to_datetime(column).dt.date`: datetimes lose their
time-of-day, NaT passes through, numbers parse as epoch-offset timestamps
(modelled at day 0, the value for the sub-day magnitudes that can appear
here), and non-date strings raise. -/
def toDateCell : Cell → Except String Cell
  | .dt d _ => .ok (.dt d 0)
  | .empty => .ok .empty
  | .num _ => .ok (.dt 0 0)
  | .str _ => .error sParseErr

/-- `if "Date" in df.columns: df["Date"] = pd.to_datetime(df["Date"]).dt.date`
(applied to every column labelled exactly "Date"). -/
def convDateCol (cols : DF) : Except String DF :=
  if cols.any (fun p => decide (p.1 = Cell.str sDate)) then
    cols.mapM (fun p =>
      if p.1 = Cell.str sDate then (p.2.mapM toDateCell).map (fun v => (p.1, v))
      else .ok p)
  else .ok cols

/-- `df.rename(columns={df.columns[0]: "Month"})`: every column whose label
equals the first column's label is renamed; raises IndexError on a frame with
no columns. -/
def renameFirstToMonth (cols : DF) : Except String DF :=
  match cols with
  | [] => .error sIdx0Err
  | (l, _) :: _ =>
      .ok (cols.map (fun p => if p.1 = l then (Cell.str sMonth, p.2) else p))

/-- `df.rename(columns={old: new})` guarded by `if old in df.columns`. -/
def renameIfPresent (cols : DF) (old new : String) : DF :=
  if cols.any (fun p => decide (p.1 = Cell.str old)) then
    cols.map (fun p => if p.1 = Cell.str old then (Cell.str new, p.2) else p)
  else cols

/-- `df.dropna(axis=1, how="all")`: drop the columns all of whose cells are
NaN (vacuously including every column of a frame with no rows, which is what
pandas does there). -/
def dropEmptyCols (cols : DF) : DF := cols.filter (fun p => !(p.2.all Cell.isEmptyC))

/-- UnlockSheetProcessor.process (sheet_processors.py lines 13-42), on the raw
columns: header from row 0 (IndexError when there is no row 0 or no columns),
duplicate-label renaming, drop of the two header rows, duplicate-Date drop,
Date truncation, first-column rename to "Month", empty-column drop. -/
def unlockProcess (raw : List (List Cell)) : Except String DF :=
  match headerOf raw with
  | none => .error sIlocErr
  | some hdr =>
      if hdr.isEmpty then .error sIlocErr
      else
        let cols1 : DF := (renameDups hdr).zip (raw.map (fun c => c.drop 2))
        let cols2 := dropDupDates cols1
        (convDateCol cols2).bind
          (fun cols3 => (renameFirstToMonth cols3).map dropEmptyCols)

/-- `df.dropna(how="all")` row filter: keep the row indices at which some
column holds a non-NaN cell (frames here are rectangular). -/
def dropEmptyRows (cols : DF) : DF :=
  let n := (cols.head?.map (fun p => p.2.length)).getD 0
  let keep := (List.range n).filter
    (fun i => cols.any (fun p => !(p.2.getD i Cell.empty).isEmptyC))
  cols.map (fun p => (p.1, keep.map (fun i => p.2.getD i Cell.empty)))

/-- OverviewSheetProcessor.process (lines 51-54): rename the second column (by
its label) to "Value", drop all-empty rows, drop all-empty columns. -/
def overviewProcess (df : DF) : Except String DF :=
  match df with
  | _ :: (l, _) :: _ =>
      let r := df.map (fun p => if p.1 = l then (Cell.str sValue, p.2) else p)
      .ok (dropEmptyCols (dropEmptyRows r))
  | _ => .error sIdx0Err

/-- SupplySheetProcessor.process (lines 63-73): keep the first 6 columns,
header from row 0 (no duplicate renaming), drop two header rows, rename the
first column to "Month", truncate Date, drop empty columns. -/
def supplyProcess (raw : List (List Cell)) : Except String DF :=
  let raw6 := raw.take 6
  match headerOf raw6 with
  | none => .error sIlocErr
  | some hdr =>
      if hdr.isEmpty then .error sIlocErr
      else
        let cols1 : DF := hdr.zip (raw6.map (fun c => c.drop 2))
        (renameFirstToMonth cols1).bind
          (fun cols2 => (convDateCol cols2).map dropEmptyCols)

/-- IssuanceSheetProcessor.process (lines 82-101): header from row 0, rename
the first column to "Month" BEFORE dropping the two header rows, rename the
two issuance columns to their "%" forms when present, truncate Date, drop
empty columns. -/
def issuanceProcess (raw : List (List Cell)) : Except String DF :=
  match headerOf raw with
  | none => .error sIlocErr
  | some hdr =>
      if hdr.isEmpty then .error sIlocErr
      else
        let cols0 : DF := hdr.zip raw
        (renameFirstToMonth cols0).bind (fun cols1 =>
          let cols2 := cols1.map (fun p => (p.1, p.2.drop 2))
          let cols3 := renameIfPresent cols2 sRelIssA sRelIssP
          let cols4 := renameIfPresent cols3 sAbsIssA sAbsIssP
          (convDateCol cols4).map dropEmptyCols)

def Cell.isNumC : Cell → Bool
  | .num _ => true
  | _ => false

def Cell.isNonIntNum : Cell → Bool
  | .num q => !(q.den == 1)
  | _ => false

/-- Whether a raw column's pandas dtype is float64/float32: every cell numeric
or NaN, and not an all-integer NaN-free column (which pandas types int64).
pandas fixes the dtype at read time over the whole column — including the row
the Yield processor later promotes to the header — and row slicing keeps it. -/
def dtypeFloat (cells : List Cell) : Bool :=
  cells.all (fun c => c.isNumC || c.isEmptyC) &&
    cells.any (fun c => c.isEmptyC || c.isNonIntNum)

/-- A Yield-processing column: label, float-dtype flag, cells. -/
abbrev YCol := Cell × Bool × List Cell

/-- `f"{col*100:.0f}%"` on a column label (YieldSheetProcessor line 120): a
numeric label formats, a NaN label formats as "nan%", anything else raises. -/
def fmtLabel : Cell → Except String Cell
  | .num q => .ok (.str (pyFmt0 (100 * q) ++ sPct))
  | .empty => .ok (.str (sNanS ++ sPct))
  | _ => .error sFmtErr

/-- One cell of `df[col].multiply(100).round(3).astype(str) + "%"` (line 124). -/
def rewriteCell : Cell → Cell
  | .num q => .str (round3Str (100 * q) ++ sPct)
  | .empty => .str (sNanS ++ sPct)
  | c => c

def yConvDate (cols : List YCol) : Except String (List YCol) :=
  if cols.any (fun p => decide (p.1 = Cell.str sDate)) then
    cols.mapM (fun p =>
      if p.1 = Cell.str sDate then
        (p.2.2.mapM toDateCell).map (fun v => (p.1, p.2.1, v))
      else .ok p)
  else .ok cols

/-- One iteration of the rename loop (lines 118-120): `col != "Date"`
short-circuits before the `df[col]` lookup; that lookup raises KeyError when
no column carries the label and AttributeError (via `.dtype` on a DataFrame)
when several do; a single float-dtype match renames every column with that
label to the formatted percentage. -/
def yRenameStep (st : List YCol) (lbl : Cell) : Except String (List YCol) :=
  if lbl = Cell.str sDate then .ok st
  else
    match st.filter (fun p => decide (p.1 = lbl)) with
    | [] => .error sKeyErr
    | [p] =>
        if p.2.1 then
          (fmtLabel lbl).map
            (fun nl => st.map (fun q => if q.1 = lbl then (nl, q.2) else q))
        else .ok st
    | _ => .error sDupLblErr

/-- One iteration of the value-rewrite loop (lines 122-124), with the same
lookup discipline as the rename loop. -/
def yRewriteStep (st : List YCol) (lbl : Cell) : Except String (List YCol) :=
  if lbl = Cell.str sDate then .ok st
  else
    match st.filter (fun p => decide (p.1 = lbl)) with
    | [] => .error sKeyErr
    | [p] =>
        if p.2.1 then
          .ok (st.map (fun q =>
            if q.1 = lbl then (q.1, q.2.1, q.2.2.map rewriteCell) else q))
        else .ok st
    | _ => .error sDupLblErr

/-- YieldSheetProcessor.process (lines 110-126): header from row 0, drop one
header row, Date truncation, the rename loop over the header-row labels, the
rewrite loop over the then-current labels, empty-column drop. -/
def yieldProcess (raw : List (List Cell)) : Except String DF :=
  match headerOf raw with
  | none => .error sIlocErr
  | some hdr =>
      if hdr.isEmpty then .error sIlocErr
      else
        let flags := raw.map dtypeFloat
        let base : List YCol := hdr.zip (flags.zip (raw.map (fun c => c.drop 1)))
        (yConvDate base).bind (fun st1 =>
          (List.foldlM yRenameStep st1 hdr).bind (fun st2 =>
            (List.foldlM yRewriteStep st2 (st2.map (fun p => p.1))).map
              (fun st3 => dropEmptyCols (st3.map (fun p => (p.1, p.2.2))))))

/-- The processor dispatch table of ExcelDataLoader (excel_loader.py lines
27-34): sheets with an unregistered name pass through unmodified. The four
header-rewriting processors ignore the incoming labels, so they receive the
bare cell columns. -/
def applyProc (name : String) (df : DF) : Except String DF :=
  if name = sUnlock then unlockProcess (df.map (fun p => p.2))
  else if name = sOverview then overviewProcess df
  else if name = sSupply then supplyProcess (df.map (fun p => p.2))
  else if name = sIssuance then issuanceProcess (df.map (fun p => p.2))
  else if name = sRelYield ∨ name = sAbsYield then
    yieldProcess (df.map (fun p => p.2))
  else .ok df

/-- ExcelDataLoader.load_data (lines 62-79): process the sheets in order; the
first exception aborts the whole load, which reports
`"Error loading Excel file: " + str(e)` and returns no mapping (the `.error`
branch stands for the `st.error(...)` report plus the `None` return). -/
def loadData (wb : List (String × DF)) : Except String (List (String × DF)) :=
  match wb.mapM (fun p => (applyProc p.1 p.2).map (fun d => (p.1, d))) with
  | .ok m => .ok m
  | .error e => .error (sLoadPre ++ e)

/-- A normalized numeric table as the aggregation views use it: unique string
column names over rational cell values (the model of the float columns the
yearly/quarterly cards aggregate). -/
abbrev QTable := List (String × List ℚ)

/-- Label lookup (first match) on a label-keyed sequence, as pandas `df[col]`
and `series[col]` resolve a unique label. -/
def sget {α : Type} : List (String × α) → String → Option α
  | [], _ => none
  | p :: s, c => if p.1 = c then some p.2 else sget s c

/-- `df[col]` column lookup by label; the tables the aggregation theorems
range over carry the looked-up column (a miss, pandas' KeyError, is guarded
by hypotheses). -/
def tfind (t : QTable) (c : String) : List ℚ := (sget t c).getD []

def findIdxQAux (p : ℚ → Bool) : List ℚ → Nat → Option Nat
  | [], _ => none
  | x :: l, k => if p x then some k else findIdxQAux p l (k + 1)

/-- `df[df["Month"] == m].index[0]`: position of the first row whose Month
value is `m`. -/
def monthIdx (t : QTable) (m : ℚ) : Option Nat :=
  findIdxQAux (fun x => decide (x = m)) (tfind t sMonth) 0

/-- `df.iloc[a : b+1]` row slicing applied to every column. -/
def rowsSlice (t : QTable) (a b : Nat) : QTable :=
  t.map (fun p => (p.1, (p.2.drop a).take (b + 1 - a)))

/-- The anchored trailing window of display_yearly_data (app.py lines 290-297)
and display_quarterly_data (lines 478-487) with period length L and 1-based
period index P: anchor month P*L, its row index, then rows
`max(0, idx-(L-1))` through `idx` (ℕ subtraction clamps at 0 exactly as the
`max(0, ...)` in the source). A missing anchor row surfaces pandas'
IndexError from `.index[0]`. -/
def periodWindow (t : QTable) (L P : Nat) : Except String QTable :=
  match monthIdx t ((P * L : ℕ) : ℚ) with
  | none => .error sIdx0Err
  | some idx => .ok (rowsSlice t (idx - (L - 1)) idx)

/-- The `monthly_cols` filter (app.py lines 302-309 / 492-499). -/
def isMonthlyCol (c : String) : Bool :=
  !(hasSub c sCumulativeSp) && !(hasSub c sMonth) && !(hasSub c sDate)

/-- The `circulating_cols` filter (lines 320-326 / 510-516): contains
"Circulating Supply %", or contains "Cumulative" but not "Cumulative "
(Python's `or` binding looser than `and`). -/
def isCircCol (c : String) : Bool :=
  hasSub c sCircSup || (hasSub c sCumulative && !(hasSub c sCumulativeSp))

/-- `series[key] = value` on a pandas Series built up key by key: overwrite
the key in place when present, otherwise append (the serieses built here have
unique keys by construction, so first-match overwrite is exact). -/
def upsert {α : Type} : List (String × α) → String → α → List (String × α)
  | [], k, v => [(k, v)]
  | p :: s, k, v => if p.1 = k then (p.1, v) :: s else p :: upsert s k v

/-- `column.sum()` over a NaN-free numeric column. -/
def pdSumQ (xs : List ℚ) : ℚ := xs.foldl (· + ·) 0

/-- The keys the sum loop (lines 315-317 / 505-507) assigns: monthly columns
without "Circulating Supply %" in the name. -/
def sumKeysOf (names : List String) : List String :=
  (names.filter isMonthlyCol).filter (fun c => !(hasSub c sCircSup))

def circKeysOf (names : List String) : List String := names.filter isCircCol

/-- One iteration of the last-value loop (lines 327-328 / 517-518):
`window.iloc[-1][col]`, raising IndexError on an empty window. -/
def circStep (w : QTable) (s : List (String × ℚ)) (c : String) :
    Except String (List (String × ℚ)) :=
  match (tfind w c).getLast? with
  | none => .error sIlocErr
  | some v => .ok (upsert s c v)

/-- The aggregation body shared verbatim by display_yearly_data (lines
302-328) and display_quarterly_data (lines 492-518): sum the qualifying
monthly columns over the window, then assign each circulating/cumulative
column the window's last row's value. -/
def aggWindow (t w : QTable) : Except String (List (String × ℚ)) :=
  let names := t.map (fun p => p.1)
  let s1 := (sumKeysOf names).foldl (fun s c => upsert s c (pdSumQ (tfind w c))) []
  List.foldlM (circStep w) s1 (circKeysOf names)

def aggPeriod (t : QTable) (L P : Nat) : Except String (List (String × ℚ)) :=
  (periodWindow t L P).bind (aggWindow t)

/-- display_yearly_data's aggregate for a given 1-based year index (the
source multiplies the index by 12 before its None check, so only the
given-index path is meaningful). -/
def aggYearly (t : QTable) (P : Nat) : Except String (List (String × ℚ)) :=
  aggPeriod t 12 P

/-- display_quarterly_data's aggregate for a given 1-based quarter index. -/
def aggQuarterly (t : QTable) (P : Nat) : Except String (List (String × ℚ)) :=
  aggPeriod t 3 P

/-- A pandas float scalar: a finite number, an infinity, or NaN. -/
inductive PVal where
  | num : ℚ → PVal
  | pinf : PVal
  | ninf : PVal
  | nan : PVal
deriving DecidableEq

/-- pandas element division: finite/finite follows IEEE (x/0 gives a signed
infinity, 0/0 gives NaN) and never raises; operands that are already
non-finite — which the loaded sheets cannot contain — are abstracted to NaN,
which is exact for every NaN operand. -/
def pdDiv : PVal → PVal → PVal
  | .num a, .num b =>
      if b = 0 then (if a > 0 then .pinf else if a < 0 then .ninf else .nan)
      else .num (a / b)
  | _, _ => .nan

def PVal.isFiniteNum : PVal → Bool
  | .num _ => true
  | _ => false

/-- create_issuance_ratio_plot's derived column (plots.py line 702):
`df["Issuance Ratio"] = df["Relative Issuance %"] / df["Absolute issuance %"]`,
element-wise; a missing operand column raises KeyError. -/
def createIssuanceRatioCol (df : List (String × List PVal)) :
    Except String (List (String × List PVal)) :=
  match sget df sRelIssP, sget df sAbsIssP with
  | some rel, some ab => .ok (upsert df sIssRatio (rel.zipWith pdDiv ab))
  | _, _ => .error sKeyErr

def sTeam : String := "Team"
def sCumTeam : String := "Cumulative Team"
def sEmissionW : String := "Emission"
def s5p : String := "5%"
def s8p : String := "8%"
def s825p : String := "8.25%"

/-- A normalized monthly table with a flow column, its running total under the
"Cumulative "-prefixed naming, and a percentage column. -/
def exT1 : QTable :=
  [(sMonth, [0, 1, 2, 3]), (sTeam, [10, 20, 40, 80]),
   (sCumTeam, [10, 30, 70, 150]), (sCircSup, [1/10, 1/5, 3/10, 2/5])]

/-- The quarter-1 window of exT1 (months 1..3). -/
def exW1 : QTable :=
  [(sMonth, [1, 2, 3]), (sTeam, [20, 40, 80]),
   (sCumTeam, [30, 70, 150]), (sCircSup, [1/5, 3/10, 2/5])]

/-- The aggregate the code produces for quarter 1 of exT1. -/
def exO1 : List (String × ℚ) := [(sTeam, 140), (sCircSup, 2/5)]

/-- An Issuance table holding the spec example 0.05 / 0.02. -/
def exDfP : List (String × List PVal) :=
  [(sRelIssP, [PVal.num (1/20)]), (sAbsIssP, [PVal.num (1/50)])]

/-- A header row repeating "Team" at position 2. -/
def exH3 : List Cell := [Cell.str sMonth, Cell.str sTeam, Cell.str sTeam]

def sCumDate : String := "Cumulative Date"

/-- The spec's C9 example sheet: header [Month, Team, Team, Date, Date], one
spacer row, two data rows (the kept Date column has a time-of-day to show the
truncation). -/
def raw9 : List (List Cell) :=
  [[Cell.str sMonth, Cell.empty, Cell.num 0, Cell.num 1],
   [Cell.str sTeam, Cell.empty, Cell.num 10, Cell.num 20],
   [Cell.str sTeam, Cell.empty, Cell.num 10, Cell.num 30],
   [Cell.str sDate, Cell.empty, Cell.dt 100 (1/2), Cell.dt 130 0],
   [Cell.str sDate, Cell.empty, Cell.dt 100 0, Cell.dt 130 0]]

/-- The normalization of raw9. -/
def out9 : DF :=
  [(Cell.str sMonth, [Cell.num 0, Cell.num 1]),
   (Cell.str sTeam, [Cell.num 10, Cell.num 20]),
   (Cell.str sCumTeam, [Cell.num 10, Cell.num 30]),
   (Cell.str sDate, [Cell.dt 100 0, Cell.dt 130 0])]

/-- An Unlock sheet whose header is [Month, Cumulative Date, Date, Date]: the
renamed second "Date" collides with the existing "Cumulative Date" label, so
the label-based drop removes every date column, including the first. -/
def rawP9 : List (List Cell) :=
  [[Cell.str sMonth, Cell.empty, Cell.num 0, Cell.num 1],
   [Cell.str sCumDate, Cell.empty, Cell.num 1, Cell.num 2],
   [Cell.str sDate, Cell.empty, Cell.dt 100 0, Cell.dt 130 0],
   [Cell.str sDate, Cell.empty, Cell.dt 100 0, Cell.dt 130 0]]

/-- A frame with two distinct date-labelled columns, for the C9 witness. -/
def cols9 : DF :=
  [(Cell.str sTeam, []), (Cell.str sDate, []), (Cell.str sCumDate, [])]

/-- A 2-row Unlock sheet (header plus spacer only, no data rows). -/
def cex8raw : List (List Cell) :=
  [[Cell.str sMonth, Cell.num 5], [Cell.str sTeam, Cell.num 1]]

/-- A 1-row Unlock sheet for the C8 witness. -/
def wit8raw : List (List Cell) := [[Cell.str sMonth], [Cell.str sValue]]

/-- The label the Yield rename loop gives a float-dtype column: the column's
header-row value (which became the label), times 100, formatted to zero
decimals with a "%" suffix; this is the amended form of C4's labelling rule. -/
def fmtCell : Cell → Cell
  | .num q => .str (pyFmt0 (100 * q) ++ sPct)
  | .empty => .str (sNanS ++ sPct)
  | c => c

/-- A Yield sheet with one column: header-row value 0.05, last-row value
0.0825. -/
def exY4 : List (List Cell) := [[Cell.num (1/20), Cell.num (33/400)]]

/-- A Yield sheet for the C4 witness: header-row value 0.05, one data row. -/
def exY4w : List (List Cell) := [[Cell.num (1/20), Cell.num (1/25)]]

/-- An Unlock header repeating "Team" three times, with one data row. -/
def raw6 : List (List Cell) :=
  [[Cell.str sMonth, Cell.empty, Cell.num 0],
   [Cell.str sTeam, Cell.empty, Cell.num 1],
   [Cell.str sTeam, Cell.empty, Cell.num 2],
   [Cell.str sTeam, Cell.empty, Cell.num 3]]

/-- The normalization of raw6: the name "Cumulative Team" appears twice. -/
def out6 : DF :=
  [(Cell.str sMonth, [Cell.num 0]), (Cell.str sTeam, [Cell.num 1]),
   (Cell.str sCumTeam, [Cell.num 2]), (Cell.str sCumTeam, [Cell.num 3])]

/-- A well-behaved Unlock sheet for the C6 witness: one duplicated label. -/
def rawW6 : List (List Cell) :=
  [[Cell.str sMonth, Cell.empty, Cell.num 0],
   [Cell.str sTeam, Cell.empty, Cell.num 1],
   [Cell.str sTeam, Cell.empty, Cell.num 2]]

/-- The normalization of rawW6. -/
def outW6 : DF :=
  [(Cell.str sMonth, [Cell.num 0]), (Cell.str sTeam, [Cell.num 1]),
   (Cell.str sCumTeam, [Cell.num 2])]

/-! ### Helper lemmas -/

theorem sget_upsert {α : Type} (s : List (String × α)) (k : String) (v : α)
    (c : String) :
    sget (upsert s k v) c = if c = k then some v else sget s c := by
  induction s with
  | nil =>
      by_cases h : c = k
      · subst h; simp [upsert, sget]
      · have h2 : ¬k = c := fun e => h e.symm
        simp [upsert, sget, h, h2]
  | cons p s ih =>
      by_cases hpk : p.1 = k
      · by_cases hck : c = k
        · subst hck; simp [upsert, hpk, sget]
        · have hpc : ¬p.1 = c := fun e => hck (e.symm.trans hpk)
          have hkc : ¬k = c := fun e => hck e.symm
          simp [upsert, sget, hpk, hpc, hck, hkc]
      · by_cases hpc : p.1 = c
        · have hck : ¬c = k := fun e => hpk (hpc.trans e)
          simp [upsert, sget, hpk, hpc, hck]
        · simp [upsert, sget, hpk, hpc, ih]

theorem mem_keys_upsert {α : Type} (s : List (String × α)) (k : String) (v : α)
    (c : String) :
    c ∈ (upsert s k v).map (fun p => p.1) ↔ c = k ∨ c ∈ s.map (fun p => p.1) := by
  induction s with
  | nil => simp [upsert]
  | cons p s ih =>
      by_cases hpk : p.1 = k
      · have he : upsert (p :: s) k v = (p.1, v) :: s := by simp [upsert, hpk]
        rw [he]
        simp only [List.map_cons, List.mem_cons]
        constructor
        · rintro (h | h)
          · exact Or.inr (Or.inl h)
          · exact Or.inr (Or.inr h)
        · rintro (h | h | h)
          · exact Or.inl (h.trans hpk.symm)
          · exact Or.inl h
          · exact Or.inr h
      · have he : upsert (p :: s) k v = p :: upsert s k v := by simp [upsert, hpk]
        rw [he]
        simp only [List.map_cons, List.mem_cons, ih]
        tauto

theorem sget_foldl_upsert {α : Type} (f : String → α) (ks : List String)
    (s : List (String × α)) (c : String) :
    sget (ks.foldl (fun a x => upsert a x (f x)) s) c =
      if c ∈ ks then some (f c) else sget s c := by
  induction ks generalizing s with
  | nil => simp
  | cons k ks ih =>
      rw [List.foldl_cons, ih]
      by_cases hks : c ∈ ks
      · simp [hks]
      · by_cases hck : c = k
        · subst hck; simp [hks, sget_upsert]
        · simp [hks, hck, sget_upsert]

theorem mem_keys_foldl_upsert {α : Type} (f : String → α) (ks : List String)
    (s : List (String × α)) (c : String) :
    c ∈ ((ks.foldl (fun a x => upsert a x (f x)) s).map (fun p => p.1)) ↔
      c ∈ ks ∨ c ∈ s.map (fun p => p.1) := by
  induction ks generalizing s with
  | nil => simp
  | cons k ks ih =>
      rw [List.foldl_cons, ih]
      rw [mem_keys_upsert]
      simp [List.mem_cons]
      tauto

theorem foldlM_circStep_ok (w : QTable) (ks : List String)
    (s out : List (String × ℚ))
    (h : List.foldlM (circStep w) s ks = Except.ok out) (c : String) :
    sget out c = if c ∈ ks then (tfind w c).getLast? else sget s c := by
  induction ks generalizing s with
  | nil =>
      rw [List.foldlM_nil] at h
      cases h
      simp
  | cons k ks ih =>
      rw [List.foldlM_cons] at h
      cases hlast : (tfind w k).getLast? with
      | none => rw [circStep, hlast] at h; cases h
      | some v =>
          rw [circStep, hlast] at h
          simp only [Except.bind] at h
          have := ih (upsert s k v) h
          rw [this]
          by_cases hks : c ∈ ks
          · simp [hks]
          · by_cases hck : c = k
            · subst hck; simp [hks, sget_upsert, hlast]
            · simp [hks, hck, sget_upsert]

theorem mem_keys_foldlM_circ (w : QTable) (ks : List String)
    (s out : List (String × ℚ))
    (h : List.foldlM (circStep w) s ks = Except.ok out) (c : String) :
    c ∈ out.map (fun p => p.1) ↔ c ∈ ks ∨ c ∈ s.map (fun p => p.1) := by
  induction ks generalizing s with
  | nil =>
      rw [List.foldlM_nil] at h
      cases h
      simp
  | cons k ks ih =>
      rw [List.foldlM_cons] at h
      cases hlast : (tfind w k).getLast? with
      | none => rw [circStep, hlast] at h; cases h
      | some v =>
          rw [circStep, hlast] at h
          simp only [Except.bind] at h
          rw [ih (upsert s k v) h, mem_keys_upsert]
          simp [List.mem_cons]
          tauto

theorem zipWith_get?_of {α β γ : Type} (f : α → β → γ) (as : List α)
    (bs : List β) (i : Nat) (a : α) (b : β)
    (ha : as.get? i = some a) (hb : bs.get? i = some b) :
    (List.zipWith f as bs).get? i = some (f a b) := by
  rw [List.zipWith_get?, ha, hb]

theorem renameDupsAux_length (ls : List Cell) :
    ∀ seen : List Cell, (renameDupsAux seen ls).length = ls.length := by
  induction ls with
  | nil => intro seen; simp [renameDupsAux]
  | cons c rest ih =>
      intro seen
      by_cases h : c ∈ seen <;> simp [renameDupsAux, h, ih]

/-- Position-wise behaviour of the duplicate-rename loop: position j is
renamed exactly when its label was already in `seen` or occurs among the
earlier labels. -/
theorem renameDupsAux_getElem? (ls : List Cell) :
    ∀ (seen : List Cell) (j : Nat),
      (renameDupsAux seen ls)[j]? =
        (ls[j]?).map
          (fun c => if c ∈ seen ∨ c ∈ ls.take j then renameCell c else c) := by
  induction ls with
  | nil => intro seen j; simp [renameDupsAux]
  | cons c rest ih =>
      intro seen j
      by_cases hc : c ∈ seen
      · rw [show renameDupsAux seen (c :: rest) = renameCell c :: renameDupsAux seen rest
          from by simp [renameDupsAux, hc]]
        cases j with
        | zero => simp [hc]
        | succ j =>
            simp only [List.getElem?_cons_succ]
            rw [ih seen j]
            cases hrest : rest[j]? with
            | none => simp
            | some d =>
                simp only [Option.map_some']
                have hiff : (d ∈ seen ∨ d ∈ rest.take j) ↔
                    (d ∈ seen ∨ d ∈ (c :: rest).take (j + 1)) := by
                  simp only [List.take_succ_cons, List.mem_cons]
                  constructor
                  · rintro (h | h)
                    · exact Or.inl h
                    · exact Or.inr (Or.inr h)
                  · rintro (h | h | h)
                    · exact Or.inl h
                    · exact Or.inl (h ▸ hc)
                    · exact Or.inr h
                exact congrArg some (if_congr hiff rfl rfl)
      · rw [show renameDupsAux seen (c :: rest) = c :: renameDupsAux (c :: seen) rest
          from by simp [renameDupsAux, hc]]
        cases j with
        | zero => simp [hc]
        | succ j =>
            simp only [List.getElem?_cons_succ]
            rw [ih (c :: seen) j]
            cases hrest : rest[j]? with
            | none => simp
            | some d =>
                simp only [Option.map_some']
                have hiff : (d ∈ c :: seen ∨ d ∈ rest.take j) ↔
                    (d ∈ seen ∨ d ∈ (c :: rest).take (j + 1)) := by
                  simp only [List.take_succ_cons, List.mem_cons]
                  tauto
                exact congrArg some (if_congr hiff rfl rfl)

theorem findIdxQAux_shift (p : ℚ → Bool) (l : List ℚ) :
    ∀ k, findIdxQAux p l (k + 1) = (findIdxQAux p l k).map (· + 1) := by
  induction l with
  | nil => intro k; simp [findIdxQAux]
  | cons x l ih =>
      intro k
      by_cases hx : p x
      · simp [findIdxQAux, hx]
      · simp only [findIdxQAux, hx, if_false, Bool.false_eq_true]
        exact ih (k + 1)

theorem findIdxQ_spec (p : ℚ → Bool) :
    ∀ (l : List ℚ) (i : Nat), findIdxQAux p l 0 = some i →
      i < l.length ∧ (∃ x, l[i]? = some x ∧ p x = true) ∧
        (∀ j, j < i → ∀ y, l[j]? = some y → p y = false) := by
  intro l
  induction l with
  | nil => intro i h; simp [findIdxQAux] at h
  | cons x l ih =>
      intro i h
      by_cases hx : p x
      · simp only [findIdxQAux, hx, if_true] at h
        cases h
        refine ⟨by simp, ⟨x, by simp, hx⟩, ?_⟩
        intro j hj
        omega
      · simp only [findIdxQAux, hx, if_false, Bool.false_eq_true] at h
        rw [findIdxQAux_shift p l 0] at h
        cases hfind : findIdxQAux p l 0 with
        | none => rw [hfind] at h; simp at h
        | some i0 =>
            rw [hfind] at h
            simp only [Option.map_some'] at h
            obtain ⟨hlen, ⟨y, hy, hpy⟩, hbefore⟩ := ih i0 hfind
            cases h
            refine ⟨by simpa using Nat.succ_lt_succ hlen, ⟨y, by simpa using hy, hpy⟩, ?_⟩
            intro j hj z hz
            cases j with
            | zero =>
                simp only [List.getElem?_cons_zero, Option.some_inj] at hz
                subst hz
                simpa using hx
            | succ j =>
                simp only [List.getElem?_cons_succ] at hz
                exact hbefore j (by omega) z hz

theorem sget_mem {α : Type} :
    ∀ (t : List (String × α)) (c : String) (v : α), sget t c = some v → (c, v) ∈ t := by
  intro t
  induction t with
  | nil => intro c v h; simp [sget] at h
  | cons p s ih =>
      intro c v h
      obtain ⟨a, b⟩ := p
      by_cases hp : a = c
      · subst hp
        rw [show sget ((a, b) :: s) a = some b from by simp [sget]] at h
        cases h
        exact List.mem_cons_self _ _
      · simp only [sget, hp, if_false] at h
        exact List.mem_cons_of_mem _ (ih c v h)

theorem tfind_rowsSlice (t : QTable) (a b : Nat) (c : String) :
    tfind (rowsSlice t a b) c = ((tfind t c).drop a).take (b + 1 - a) := by
  induction t with
  | nil => simp [rowsSlice, tfind, sget]
  | cons p s ih =>
      by_cases hp : p.1 = c
      · simp [rowsSlice, tfind, sget, hp]
      · simpa [rowsSlice, tfind, sget, hp] using ih

theorem mapM_loader_ok (pre : List (String × DF))
    (h : ∀ p ∈ pre, ∃ r, applyProc p.1 p.2 = Except.ok r) :
    ∃ l, pre.mapM (fun p => (applyProc p.1 p.2).map (fun d => (p.1, d))) =
      Except.ok l := by
  induction pre with
  | nil => exact ⟨[], rfl⟩
  | cons p pre ih =>
      obtain ⟨r, hr⟩ := h p (List.mem_cons_self _ _)
      obtain ⟨l, hl⟩ := ih (fun q hq => h q (List.mem_cons_of_mem _ hq))
      refine ⟨(p.1, r) :: l, ?_⟩
      rw [List.mapM_cons, hr, hl]
      rfl

theorem convDate_empty_cells (cols : DF) (h : ∀ p ∈ cols, p.2 = []) :
    cols.mapM (fun p =>
      if p.1 = Cell.str sDate then (p.2.mapM toDateCell).map (fun v => (p.1, v))
      else .ok p) = Except.ok cols := by
  induction cols with
  | nil => rfl
  | cons p cols ih =>
      have hp := h p (List.mem_cons_self _ _)
      have hrest := ih (fun q hq => h q (List.mem_cons_of_mem _ hq))
      rw [List.mapM_cons, hrest]
      by_cases hd : p.1 = Cell.str sDate
      · rw [if_pos hd, hp]
        show Except.ok ((p.1, ([] : List Cell)) :: cols) = Except.ok (p :: cols)
        rw [show (p.1, ([] : List Cell)) = p from by rw [← hp]]
      · rw [if_neg hd]
        rfl

theorem headerOf_length :
    ∀ (raw : List (List Cell)) (hdr : List Cell),
      headerOf raw = some hdr → hdr.length = raw.length := by
  intro raw
  induction raw with
  | nil =>
      intro hdr h
      cases h
      rfl
  | cons col raw ih =>
      intro hdr h
      rw [headerOf, List.mapM_cons] at h
      cases hhd : col.head? with
      | none =>
          rw [hhd] at h
          have h2 : (none : Option (List Cell)) = some hdr := h
          cases h2
      | some x =>
          rw [hhd] at h
          cases hrest : List.mapM List.head? raw with
          | none =>
              rw [hrest] at h
              have h2 : (none : Option (List Cell)) = some hdr := h
              cases h2
          | some rest =>
              rw [hrest] at h
              have h2 : some (x :: rest) = some hdr := h
              cases h2
              simpa using ih rest hrest

/-- One rename-loop step on a numeric label whose unique matching column is
float-dtype: the column is renamed to the formatted percentage label. -/
theorem yRenameStep_single (st : List YCol) (q : ℚ) (cells : List Cell)
    (hfd : st.filter (fun p => decide (p.1 = Cell.num q)) =
      [(Cell.num q, true, cells)]) :
    yRenameStep st (Cell.num q) =
      Except.ok (st.map (fun p => if p.1 = Cell.num q then
        (Cell.str (pyFmt0 (100 * q) ++ sPct), p.2) else p)) := by
  rw [yRenameStep, if_neg (by intro h; cases h), hfd]
  rfl

/-- One rewrite-loop step on a non-Date label whose unique matching column is
float-dtype: the column's cells are rewritten to percentage strings. -/
theorem yRewriteStep_single (st : List YCol) (lbl : Cell) (cells : List Cell)
    (hld : ¬lbl = Cell.str sDate)
    (hfd : st.filter (fun p => decide (p.1 = lbl)) = [(lbl, true, cells)]) :
    yRewriteStep st lbl =
      Except.ok (st.map (fun p => if p.1 = lbl then
        (p.1, p.2.1, p.2.2.map rewriteCell) else p)) := by
  rw [yRewriteStep, if_neg hld, hfd]
  rfl

/-- The Yield rename loop, run over the labels of the still-unprocessed
columns: with numeric, pairwise-distinct, float-dtype labels each step
renames exactly its own column to the formatted percentage. -/
theorem yRename_fold :
    ∀ (todo done : List YCol) (ls : List Cell),
      ls = todo.map (fun p => p.1) →
      (∀ p ∈ done, ∃ s, p.1 = Cell.str s) →
      (∀ p ∈ todo, ∃ q, p.1 = Cell.num q) →
      (∀ p ∈ todo, p.2.1 = true) →
      ((todo.map (fun p => p.1)).Nodup) →
      List.foldlM yRenameStep (done ++ todo) ls =
        Except.ok (done ++ todo.map (fun p => (fmtCell p.1, p.2))) := by
  intro todo
  induction todo with
  | nil =>
      intro done ls hls _ _ _ _
      subst hls
      simp only [List.map_nil, List.foldlM_nil, List.append_nil]
      rfl
  | cons t todo ih =>
      intro done ls hls hdone htodo hflag hnd
      subst hls
      obtain ⟨t1, tfl, tcells⟩ := t
      obtain ⟨q, hq0⟩ := htodo (t1, tfl, tcells) (List.mem_cons_self _ _)
      have hq : t1 = Cell.num q := hq0
      have hfl : tfl = true := hflag (t1, tfl, tcells) (List.mem_cons_self _ _)
      subst hq
      subst hfl
      simp only [List.map_cons]
      rw [List.foldlM_cons]
      have hfd : (done ++ (Cell.num q, true, tcells) :: todo).filter
          (fun p => decide (p.1 = Cell.num q)) =
          [(Cell.num q, true, tcells)] := by
        rw [List.filter_append]
        have h1 : done.filter (fun p => decide (p.1 = Cell.num q)) = [] := by
          apply List.filter_eq_nil_iff.2
          intro p hp
          obtain ⟨s, hs⟩ := hdone p hp
          simp [hs]
        have h3 : todo.filter (fun p => decide (p.1 = Cell.num q)) = [] := by
          apply List.filter_eq_nil_iff.2
          intro p hp
          have hne : ¬(p.1 = Cell.num q) := by
            intro he
            exact (List.nodup_cons.1 (by simpa using hnd)).1
              (List.mem_map.2 ⟨p, hp, he⟩)
          simp [hne]
        rw [h1, List.nil_append]
        rw [show List.filter (fun p => decide (p.1 = Cell.num q))
            ((Cell.num q, true, tcells) :: todo) =
          (Cell.num q, true, tcells) ::
            todo.filter (fun p => decide (p.1 = Cell.num q)) from by simp]
        rw [h3]
      rw [yRenameStep_single _ q tcells hfd]
      simp only [Bind.bind, Except.bind]
      have hmap : (done ++ (Cell.num q, true, tcells) :: todo).map
          (fun p => if p.1 = Cell.num q then
            (Cell.str (pyFmt0 (100 * q) ++ sPct), p.2) else p) =
          done ++ (Cell.str (pyFmt0 (100 * q) ++ sPct), true, tcells) :: todo := by
        rw [List.map_append, List.map_cons]
        have hd : done.map (fun p => if p.1 = Cell.num q then
            (Cell.str (pyFmt0 (100 * q) ++ sPct), p.2) else p) = done := by
          have heq : done.map (fun p => if p.1 = Cell.num q then
              (Cell.str (pyFmt0 (100 * q) ++ sPct), p.2) else p) =
              done.map (fun p => p) := by
            apply List.map_congr_left
            intro p hp
            obtain ⟨s, hs⟩ := hdone p hp
            simp [hs]
          rw [heq, List.map_id']
        have ht : todo.map (fun p => if p.1 = Cell.num q then
            (Cell.str (pyFmt0 (100 * q) ++ sPct), p.2) else p) = todo := by
          have heq : todo.map (fun p => if p.1 = Cell.num q then
              (Cell.str (pyFmt0 (100 * q) ++ sPct), p.2) else p) =
              todo.map (fun p => p) := by
            apply List.map_congr_left
            intro p hp
            have hne : ¬(p.1 = Cell.num q) := by
              intro he
              exact (List.nodup_cons.1 (by simpa using hnd)).1
                (List.mem_map.2 ⟨p, hp, he⟩)
            simp [hne]
          rw [heq, List.map_id']
        rw [hd, ht]
        simp
      rw [hmap]
      have hih := ih (done ++ [(Cell.str (pyFmt0 (100 * q) ++ sPct), true, tcells)])
        (todo.map (fun p => p.1)) rfl
        (by
          intro p hp
          rcases List.mem_append.1 hp with h | h
          · exact hdone p h
          · refine ⟨pyFmt0 (100 * q) ++ sPct, ?_⟩
            have : p = (Cell.str (pyFmt0 (100 * q) ++ sPct), true, tcells) := by
              simpa using h
            rw [this])
        (fun p hp => htodo p (List.mem_cons_of_mem _ hp))
        (fun p hp => hflag p (List.mem_cons_of_mem _ hp))
        ((List.nodup_cons.1 (by simpa using hnd)).2)
      simp only [List.append_assoc, List.singleton_append] at hih
      rw [hih]
      simp [fmtCell]

/-- The Yield value-rewrite loop, run over the current labels: with
pairwise-distinct non-Date labels and float flags, each step rewrites exactly
its own column's cells. -/
theorem yRewrite_fold :
    ∀ (todo done : List YCol) (ls : List Cell),
      ls = todo.map (fun p => p.1) →
      (∀ p ∈ todo, ¬p.1 = Cell.str sDate) →
      (∀ p ∈ todo, p.2.1 = true) →
      (((done ++ todo).map (fun p => p.1)).Nodup) →
      List.foldlM yRewriteStep (done ++ todo) ls =
        Except.ok (done ++ todo.map
          (fun p => (p.1, p.2.1, p.2.2.map rewriteCell))) := by
  intro todo
  induction todo with
  | nil =>
      intro done ls hls _ _ _
      subst hls
      simp only [List.map_nil, List.foldlM_nil, List.append_nil]
      rfl
  | cons t todo ih =>
      intro done ls hls hdate hflag hnd
      subst hls
      obtain ⟨t1, tfl, tcells⟩ := t
      have hfl : tfl = true := hflag (t1, tfl, tcells) (List.mem_cons_self _ _)
      subst hfl
      have hld : ¬t1 = Cell.str sDate := hdate (t1, true, tcells)
        (List.mem_cons_self _ _)
      simp only [List.map_cons]
      rw [List.foldlM_cons]
      have hndL : t1 ∉ done.map (fun p => p.1) ∧
          t1 ∉ todo.map (fun p => p.1) := by
        rw [List.map_append, List.map_cons] at hnd
        obtain ⟨hdn, htn, hdisj⟩ := List.nodup_append.1 hnd
        constructor
        · intro hmem
          exact hdisj hmem (List.mem_cons_self _ _)
        · exact (List.nodup_cons.1 htn).1
      have hfd : (done ++ (t1, true, tcells) :: todo).filter
          (fun p => decide (p.1 = t1)) = [(t1, true, tcells)] := by
        rw [List.filter_append]
        have h1 : done.filter (fun p => decide (p.1 = t1)) = [] := by
          apply List.filter_eq_nil_iff.2
          intro p hp
          have : ¬(p.1 = t1) := by
            intro he
            exact hndL.1 (List.mem_map.2 ⟨p, hp, he⟩)
          simp [this]
        have h3 : todo.filter (fun p => decide (p.1 = t1)) = [] := by
          apply List.filter_eq_nil_iff.2
          intro p hp
          have : ¬(p.1 = t1) := by
            intro he
            exact hndL.2 (List.mem_map.2 ⟨p, hp, he⟩)
          simp [this]
        rw [h1, List.nil_append]
        rw [show List.filter (fun p => decide (p.1 = t1))
            ((t1, true, tcells) :: todo) =
          (t1, true, tcells) :: todo.filter (fun p => decide (p.1 = t1))
          from by simp]
        rw [h3]
      rw [yRewriteStep_single _ t1 tcells hld hfd]
      simp only [Bind.bind, Except.bind]
      have hmap : (done ++ (t1, true, tcells) :: todo).map
          (fun p => if p.1 = t1 then (p.1, p.2.1, p.2.2.map rewriteCell) else p) =
          done ++ (t1, true, tcells.map rewriteCell) :: todo := by
        rw [List.map_append, List.map_cons]
        have hd : done.map (fun p => if p.1 = t1 then
            (p.1, p.2.1, p.2.2.map rewriteCell) else p) = done := by
          have heq : done.map (fun p => if p.1 = t1 then
              (p.1, p.2.1, p.2.2.map rewriteCell) else p) =
              done.map (fun p => p) := by
            apply List.map_congr_left
            intro p hp
            have : ¬(p.1 = t1) := by
              intro he
              exact hndL.1 (List.mem_map.2 ⟨p, hp, he⟩)
            simp [this]
          rw [heq, List.map_id']
        have ht : todo.map (fun p => if p.1 = t1 then
            (p.1, p.2.1, p.2.2.map rewriteCell) else p) = todo := by
          have heq : todo.map (fun p => if p.1 = t1 then
              (p.1, p.2.1, p.2.2.map rewriteCell) else p) =
              todo.map (fun p => p) := by
            apply List.map_congr_left
            intro p hp
            have : ¬(p.1 = t1) := by
              intro he
              exact hndL.2 (List.mem_map.2 ⟨p, hp, he⟩)
            simp [this]
          rw [heq, List.map_id']
        rw [hd, ht]
        simp
      rw [hmap]
      have hih := ih (done ++ [(t1, true, tcells.map rewriteCell)])
        (todo.map (fun p => p.1)) rfl
        (fun p hp => hdate p (List.mem_cons_of_mem _ hp))
        (fun p hp => hflag p (List.mem_cons_of_mem _ hp))
        (by
          simp only [List.append_assoc, List.singleton_append]
          rw [List.map_append, List.map_cons]
          rw [List.map_append, List.map_cons] at hnd
          exact hnd)
      simp only [List.append_assoc, List.singleton_append] at hih
      rw [hih]

theorem yzip_strip :
    ∀ (hdr : List Cell) (raw : List (List Cell)),
      ((hdr.zip ((raw.map dtypeFloat).zip (raw.map (fun c => c.drop 1)))).map
        (fun p => (fmtCell p.1, p.2.2.map rewriteCell))) =
      List.zipWith (fun c col => (fmtCell c, (col.drop 1).map rewriteCell))
        hdr raw := by
  intro hdr
  induction hdr with
  | nil => intro raw; simp
  | cons c hdr ih =>
      intro raw
      cases raw with
      | nil => simp
      | cons col raw =>
          simp only [List.map_cons, List.zip_cons_cons, List.zipWith_cons_cons]
          rw [ih]

theorem chPre_append_self :
    ∀ a b : List Char, chPre a (a ++ b) = true := by
  intro a
  induction a with
  | nil => intro b; rfl
  | cons x a ih => intro b; simp [chPre, ih]

theorem strAppendCancel (s a b : String) (h : s ++ a = s ++ b) : a = b := by
  apply String.ext
  have hd := congrArg String.data h
  rw [String.data_append, String.data_append] at hd
  exact List.append_cancel_left hd

theorem cumEmission_split : sCumulativeEmission = sCumulativeSp ++ sEmissionW := by
  decide

/-- Every renamed label is a "Cumulative "-prefixed string. -/
theorem renameCell_shape : ∀ c : Cell, ∃ s, renameCell c = Cell.str (sCumulativeSp ++ s) := by
  intro c
  rw [renameCell]
  by_cases hc : c = Cell.str sCumulative
  · exact ⟨sEmissionW, by rw [if_pos hc, cumEmission_split]⟩
  · exact ⟨cellToStr c, by rw [if_neg hc]⟩

/-- The rename is injective on string labels, except for the single collision
between a repeated "Cumulative" and a repeated "Emission". -/
theorem renameCell_inj :
    ∀ a b : String, renameCell (Cell.str a) = renameCell (Cell.str b) →
      a = b ∨ (a = sCumulative ∧ b = sEmissionW) ∨
        (a = sEmissionW ∧ b = sCumulative) := by
  intro a b h
  rw [renameCell, renameCell] at h
  by_cases ha : a = sCumulative
  · by_cases hb : b = sCumulative
    · exact Or.inl (ha.trans hb.symm)
    · rw [if_pos (by rw [ha]), if_neg (by intro he; exact hb (Cell.str.inj he))] at h
      have h2 : sCumulativeSp ++ sEmissionW = sCumulativeSp ++ cellToStr (Cell.str b) := by
        rw [← cumEmission_split]
        exact Cell.str.inj h
      have h3 : sEmissionW = b := strAppendCancel _ _ _ h2
      exact Or.inr (Or.inl ⟨ha, h3.symm⟩)
  · by_cases hb : b = sCumulative
    · rw [if_neg (by intro he; exact ha (Cell.str.inj he)), if_pos (by rw [hb])] at h
      have h2 : sCumulativeSp ++ cellToStr (Cell.str a) = sCumulativeSp ++ sEmissionW := by
        rw [← cumEmission_split]
        exact Cell.str.inj h
      have h3 : a = sEmissionW := strAppendCancel _ _ _ h2
      exact Or.inr (Or.inr ⟨h3, hb⟩)
    · rw [if_neg (by intro he; exact ha (Cell.str.inj he)),
        if_neg (by intro he; exact hb (Cell.str.inj he))] at h
      exact Or.inl (strAppendCancel _ _ _ (Cell.str.inj h))

/-- A "Cumulative "-prefixed string never equals a string without that
prefix. -/
theorem noPre_ne (s t : String) (hs : chPre sCumulativeSp.data s.data = false) :
    Cell.str s ≠ Cell.str (sCumulativeSp ++ t) := by
  intro h
  have hst : s = sCumulativeSp ++ t := Cell.str.inj h
  rw [hst, String.data_append, chPre_append_self] at hs
  cases hs

/-- Elements of the rename loop's output: originals not yet seen, or renames
of labels that were seen before or repeat. -/
theorem mem_renameDupsAux :
    ∀ (ls seen : List Cell) (x : Cell), x ∈ renameDupsAux seen ls →
      (x ∈ ls ∧ x ∉ seen) ∨
      (∃ d, d ∈ ls ∧ x = renameCell d ∧ (d ∈ seen ∨ 2 ≤ ls.count d)) := by
  intro ls
  induction ls with
  | nil => intro seen x hx; cases hx
  | cons c rest ih =>
      intro seen x hx
      by_cases hc : c ∈ seen
      · rw [show renameDupsAux seen (c :: rest) =
            renameCell c :: renameDupsAux seen rest from by
          simp [renameDupsAux, hc]] at hx
        rcases List.mem_cons.1 hx with hx1 | hx2
        · exact Or.inr ⟨c, List.mem_cons_self _ _, hx1, Or.inl hc⟩
        · rcases ih seen x hx2 with ⟨h1, h2⟩ | ⟨d, hd1, hd2, hd3⟩
          · exact Or.inl ⟨List.mem_cons_of_mem _ h1, h2⟩
          · refine Or.inr ⟨d, List.mem_cons_of_mem _ hd1, hd2, ?_⟩
            rcases hd3 with h | h
            · exact Or.inl h
            · refine Or.inr (le_trans h ?_)
              rw [List.count_cons]
              omega
      · rw [show renameDupsAux seen (c :: rest) =
            c :: renameDupsAux (c :: seen) rest from by
          simp [renameDupsAux, hc]] at hx
        rcases List.mem_cons.1 hx with hx1 | hx2
        · exact Or.inl ⟨hx1 ▸ List.mem_cons_self _ _, hx1 ▸ hc⟩
        · rcases ih (c :: seen) x hx2 with ⟨h1, h2⟩ | ⟨d, hd1, hd2, hd3⟩
          · exact Or.inl ⟨List.mem_cons_of_mem _ h1,
              fun hmem => h2 (List.mem_cons_of_mem _ hmem)⟩
          · refine Or.inr ⟨d, List.mem_cons_of_mem _ hd1, hd2, ?_⟩
            rcases hd3 with h | h
            · rcases List.mem_cons.1 h with h1 | h1
              · refine Or.inr ?_
                subst h1
                have hpos : 0 < rest.count d := List.count_pos_iff_mem.2 hd1
                rw [List.count_cons_self]
                omega
              · exact Or.inl h1
            · refine Or.inr (le_trans h ?_)
              rw [List.count_cons]
              omega

/-- Core of C6: under the stated header conditions the rename loop produces
pairwise-distinct labels. -/
theorem renameDupsAux_nodup :
    ∀ (ls seen : List Cell),
      (∀ c ∈ ls, ∃ s, c = Cell.str s) →
      (∀ c : Cell, ls.count c ≤ 2) →
      (∀ x ∈ seen, ls.count x ≤ 1) →
      (∀ s, Cell.str s ∈ ls → chPre sCumulativeSp.data s.data = false) →
      ¬((((Cell.str sCumulative ∈ seen ∧ Cell.str sCumulative ∈ ls) ∨
            2 ≤ ls.count (Cell.str sCumulative)) ∧
          ((Cell.str sEmissionW ∈ seen ∧ Cell.str sEmissionW ∈ ls) ∨
            2 ≤ ls.count (Cell.str sEmissionW)))) →
      (renameDupsAux seen ls).Nodup := by
  intro ls
  induction ls with
  | nil => intro seen _ _ _ _ _; exact List.nodup_nil
  | cons c rest ih =>
      intro seen hstr hcount hseen hpre hclash
      have hcountrest : ∀ x : Cell, rest.count x ≤ 2 := by
        intro x
        have := hcount x
        rw [List.count_cons] at this
        omega
      have hstrrest : ∀ x ∈ rest, ∃ s, x = Cell.str s :=
        fun x hx => hstr x (List.mem_cons_of_mem _ hx)
      have hprerest : ∀ s, Cell.str s ∈ rest → chPre sCumulativeSp.data s.data = false :=
        fun s hs => hpre s (List.mem_cons_of_mem _ hs)
      obtain ⟨sc, hsc⟩ := hstr c (List.mem_cons_self _ _)
      by_cases hc : c ∈ seen
      · rw [show renameDupsAux seen (c :: rest) =
            renameCell c :: renameDupsAux seen rest from by
          simp [renameDupsAux, hc]]
        refine List.nodup_cons.2 ⟨?_, ?_⟩
        · intro hmem
          rcases mem_renameDupsAux rest seen (renameCell c) hmem with
            ⟨h1, _⟩ | ⟨d, hd1, hd2, hd3⟩
          · obtain ⟨t, ht⟩ := renameCell_shape c
            obtain ⟨s1, hs1⟩ := hstrrest _ h1
            rw [ht] at h1 hs1
            exact noPre_ne s1 t
              (hprerest s1 (hs1 ▸ h1)) (by rw [← hs1])
          · obtain ⟨sd, hsd⟩ := hstrrest d hd1
            rw [hsc, hsd] at hd2
            rcases renameCell_inj sc sd hd2 with heq | ⟨h1, h2⟩ | ⟨h1, h2⟩
            · have hcd : c = d := by rw [hsc, hsd, heq]
              have h1 := hseen c hc
              rw [List.count_cons] at h1
              simp at h1
              have : 0 < rest.count c := List.count_pos_iff_mem.2 (hcd ▸ hd1)
              omega
            · apply hclash
              constructor
              · exact Or.inl ⟨by rw [← h1, ← hsc]; exact hc,
                  by rw [← h1, ← hsc]; exact List.mem_cons_self _ _⟩
              · rcases hd3 with h | h
                · exact Or.inl ⟨by rw [← h2, ← hsd]; exact h,
                    by rw [← h2, ← hsd]; exact List.mem_cons_of_mem _ hd1⟩
                · refine Or.inr ?_
                  rw [← h2, ← hsd, List.count_cons]
                  omega
            · apply hclash
              constructor
              · rcases hd3 with h | h
                · exact Or.inl ⟨by rw [← h2, ← hsd]; exact h,
                    by rw [← h2, ← hsd]; exact List.mem_cons_of_mem _ hd1⟩
                · refine Or.inr ?_
                  rw [← h2, ← hsd, List.count_cons]
                  omega
              · exact Or.inl ⟨by rw [← h1, ← hsc]; exact hc,
                  by rw [← h1, ← hsc]; exact List.mem_cons_self _ _⟩
        · apply ih seen hstrrest hcountrest
          · intro x hx
            have := hseen x hx
            rw [List.count_cons] at this
            omega
          · exact hprerest
          · intro hcl
            apply hclash
            obtain ⟨h1, h2⟩ := hcl
            constructor
            · rcases h1 with ⟨ha, hb⟩ | h
              · exact Or.inl ⟨ha, List.mem_cons_of_mem _ hb⟩
              · refine Or.inr (le_trans h ?_)
                rw [List.count_cons]
                omega
            · rcases h2 with ⟨ha, hb⟩ | h
              · exact Or.inl ⟨ha, List.mem_cons_of_mem _ hb⟩
              · refine Or.inr (le_trans h ?_)
                rw [List.count_cons]
                omega
      · rw [show renameDupsAux seen (c :: rest) =
            c :: renameDupsAux (c :: seen) rest from by
          simp [renameDupsAux, hc]]
        refine List.nodup_cons.2 ⟨?_, ?_⟩
        · intro hmem
          rcases mem_renameDupsAux rest (c :: seen) c hmem with
            ⟨_, h2⟩ | ⟨d, hd1, hd2, _⟩
          · exact h2 (List.mem_cons_self _ _)
          · obtain ⟨t, ht⟩ := renameCell_shape d
            rw [ht] at hd2
            exact noPre_ne sc t
              (hpre sc (hsc ▸ List.mem_cons_self _ _)) (hsc ▸ hd2)
        · apply ih (c :: seen) hstrrest hcountrest
          · intro x hx
            rcases List.mem_cons.1 hx with h1 | h1
            · have := hcount c
              rw [List.count_cons] at this
              simp at this
              subst h1
              omega
            · have := hseen x h1
              rw [List.count_cons] at this
              omega
          · exact hprerest
          · intro hcl
            apply hclash
            obtain ⟨h1, h2⟩ := hcl
            constructor
            · rcases h1 with ⟨ha, hb⟩ | h
              · rcases List.mem_cons.1 ha with hac | has
                · refine Or.inr ?_
                  rw [← hac, List.count_cons_self]
                  have hpos : 0 < rest.count (Cell.str sCumulative) :=
                    List.count_pos_iff_mem.2 hb
                  omega
                · exact Or.inl ⟨has, List.mem_cons_of_mem _ hb⟩
              · refine Or.inr (le_trans h ?_)
                rw [List.count_cons]
                omega
            · rcases h2 with ⟨ha, hb⟩ | h
              · rcases List.mem_cons.1 ha with hac | has
                · refine Or.inr ?_
                  rw [← hac, List.count_cons_self]
                  have hpos : 0 < rest.count (Cell.str sEmissionW) :=
                    List.count_pos_iff_mem.2 hb
                  omega
                · exact Or.inl ⟨has, List.mem_cons_of_mem _ hb⟩
              · refine Or.inr (le_trans h ?_)
                rw [List.count_cons]
                omega

theorem renameDups_length (ls : List Cell) :
    (renameDups ls).length = ls.length := renameDupsAux_length ls []

/-- The first header label is never renamed. -/
theorem renameDups_head (ls : List Cell) : (renameDups ls)[0]? = ls[0]? := by
  rw [renameDups, renameDupsAux_getElem?]
  cases h : ls[0]? with
  | none => rfl
  | some c => simp

theorem dropDupDates_sublist (cols : DF) : (dropDupDates cols).Sublist cols := by
  rw [dropDupDates]
  split
  · exact List.filter_sublist _
  · exact List.Sublist.refl _

/-- With pairwise-distinct labels the duplicate-date drop never removes the
first column. -/
theorem dropDupDates_head (q0 : Cell × List Cell)
    (qrest : List (Cell × List Cell))
    (hnd : (((q0 :: qrest).map (fun p => p.1)).Nodup)) :
    ∃ rest2, dropDupDates (q0 :: qrest) = q0 :: rest2 := by
  have hdl : (((q0 :: qrest).filter (fun p => isDateLbl p.1)).map
      (fun p => p.1)).Nodup :=
    List.Nodup.sublist (List.Sublist.map _ (List.filter_sublist _)) hnd
  have hq0 : q0.1 ∉ (((q0 :: qrest).filter (fun p => isDateLbl p.1)).map
      (fun p => p.1)).drop 1 := by
    intro hmem
    by_cases hq0d : isDateLbl q0.1
    · have hfe : List.filter (fun p => isDateLbl p.1) (q0 :: qrest) =
          q0 :: List.filter (fun p => isDateLbl p.1) qrest := by
        rw [List.filter_cons]
        simp [hq0d]
      rw [hfe] at hmem hdl
      simp only [List.map_cons, List.drop_succ_cons, List.drop_zero] at hmem
      rw [List.map_cons] at hdl
      exact (List.nodup_cons.1 hdl).1 hmem
    · have hsub := List.mem_of_mem_drop hmem
      obtain ⟨q, hq, hq1⟩ := List.mem_map.1 hsub
      have hdq := (List.mem_filter.1 hq).2
      rw [hq1] at hdq
      exact hq0d hdq
  rw [dropDupDates]
  by_cases hlen : (((q0 :: qrest).filter (fun p => isDateLbl p.1)).map
      (fun p => p.1)).length > 1
  · have hfe2 : List.filter (fun p =>
        decide (p.1 ∉ (((q0 :: qrest).filter (fun p => isDateLbl p.1)).map
          (fun p => p.1)).drop 1)) (q0 :: qrest) =
        q0 :: List.filter (fun p =>
          decide (p.1 ∉ (((q0 :: qrest).filter (fun p => isDateLbl p.1)).map
            (fun p => p.1)).drop 1)) qrest := by
      rw [List.filter_cons]
      have hq0t : q0.1 ∉ (((q0 :: qrest).filter (fun p => isDateLbl p.1)).map
          (fun p => p.1)).tail := by
        rw [← List.drop_one]
        exact hq0
      simp [hq0t]
    rw [if_pos hlen, hfe2]
    exact ⟨_, rfl⟩
  · rw [if_neg hlen]
    exact ⟨qrest, rfl⟩

theorem convMapM_labels :
    ∀ (cols out : DF),
      cols.mapM (fun p =>
        if p.1 = Cell.str sDate then
          (p.2.mapM toDateCell).map (fun v => (p.1, v))
        else .ok p) = Except.ok out →
      out.map (fun p => p.1) = cols.map (fun p => p.1) := by
  intro cols
  induction cols with
  | nil =>
      intro out h
      have h2 : Except.ok ([] : DF) = Except.ok out := h
      cases h2
      rfl
  | cons p cols ih =>
      intro out h
      rw [List.mapM_cons] at h
      cases hgp : (if p.1 = Cell.str sDate then
          (p.2.mapM toDateCell).map (fun v => (p.1, v)) else .ok p) with
      | error e =>
          rw [hgp] at h
          have h2 : (Except.error e : Except String DF) = Except.ok out := h
          cases h2
      | ok y =>
          rw [hgp] at h
          cases hrest : cols.mapM (fun p =>
              if p.1 = Cell.str sDate then
                (p.2.mapM toDateCell).map (fun v => (p.1, v))
              else .ok p) with
          | error e =>
              rw [hrest] at h
              have h2 : (Except.error e : Except String DF) = Except.ok out := h
              cases h2
          | ok ys =>
              rw [hrest] at h
              have h2 : Except.ok (y :: ys) = Except.ok out := h
              cases h2
              have hy : y.1 = p.1 := by
                by_cases hd : p.1 = Cell.str sDate
                · rw [if_pos hd] at hgp
                  cases hmm : p.2.mapM toDateCell with
                  | error e =>
                      rw [hmm] at hgp
                      cases hgp
                  | ok v =>
                      rw [hmm] at hgp
                      have h3 : Except.ok (p.1, v) = Except.ok y := hgp
                      cases h3
                      rfl
                · rw [if_neg hd] at hgp
                  cases hgp
                  rfl
              rw [List.map_cons, List.map_cons, hy, ih ys hrest]

theorem convDateCol_labels (cols out : DF) (h : convDateCol cols = Except.ok out) :
    out.map (fun p => p.1) = cols.map (fun p => p.1) := by
  rw [convDateCol] at h
  split at h
  · exact convMapM_labels cols out h
  · cases h
    rfl

/-! ### Claim theorems -/

/-- C10: the issuance-ratio computation derives, per row, Issuance Ratio as
the element-wise quotient of the relative by the absolute issuance column
(0.05 / 0.02 giving exactly 2.5); a zero divisor produces a non-finite value
(inf, or NaN when the numerator is also zero) in that row, never an
exception: given the two operand columns, the computation always returns a
result table. -/
theorem c10_issuance_ratio : ∀ (df : List (String × List PVal))
    (rel ab : List PVal),
    sget df sRelIssP = some rel → sget df sAbsIssP = some ab →
    ∃ out, createIssuanceRatioCol df = Except.ok out ∧
      sget out sIssRatio = some (rel.zipWith pdDiv ab) ∧
      (∀ (i : Nat) (x : PVal), rel.get? i = some x →
        ab.get? i = some (PVal.num 0) →
        (rel.zipWith pdDiv ab).get? i = some (pdDiv x (PVal.num 0)) ∧
        (pdDiv x (PVal.num 0)).isFiniteNum = false) ∧
      pdDiv (PVal.num (1/20)) (PVal.num (1/50)) = PVal.num (5/2) := by
  intro df rel ab h1 h2
  refine ⟨upsert df sIssRatio (rel.zipWith pdDiv ab), ?_, ?_, ?_, ?_⟩
  · rw [createIssuanceRatioCol, h1, h2]
  · rw [sget_upsert]; simp
  · intro i x hx hab
    refine ⟨zipWith_get?_of pdDiv rel ab i x (PVal.num 0) hx hab, ?_⟩
    cases x with
    | num a =>
        simp only [pdDiv]
        split_ifs <;> simp [PVal.isFiniteNum]
    | pinf => simp [pdDiv, PVal.isFiniteNum]
    | ninf => simp [pdDiv, PVal.isFiniteNum]
    | nan => simp [pdDiv, PVal.isFiniteNum]
  · norm_num [pdDiv]

/-- Witness for C10 at the spec's concrete example table. -/
theorem c10_witness :
    ∃ out, createIssuanceRatioCol exDfP = Except.ok out ∧
      sget out sIssRatio = some ([PVal.num (1/20)].zipWith pdDiv [PVal.num (1/50)]) ∧
      (∀ (i : Nat) (x : PVal), [PVal.num (1/20)].get? i = some x →
        [PVal.num (1/50)].get? i = some (PVal.num 0) →
        ([PVal.num (1/20)].zipWith pdDiv [PVal.num (1/50)]).get? i =
          some (pdDiv x (PVal.num 0)) ∧
        (pdDiv x (PVal.num 0)).isFiniteNum = false) ∧
      pdDiv (PVal.num (1/20)) (PVal.num (1/50)) = PVal.num (5/2) :=
  c10_issuance_ratio exDfP [PVal.num (1/20)] [PVal.num (1/50)]
    (of_decide_eq_true (by with_unfolding_all rfl))
    (of_decide_eq_true (by with_unfolding_all rfl))

/-- C3: in Unlock-sheet normalization, a header label that already occurred
earlier in the row is renamed to "Cumulative " + label, except that a
repeated "Cumulative" label becomes "Cumulative Emission". -/
theorem c3_duplicate_rename :
    ∀ (ls : List Cell) (j : Nat) (a : String),
      ls[j]? = some (Cell.str a) →
      Cell.str a ∈ ls.take j →
      (renameDups ls)[j]? =
        some (if a = sCumulative then Cell.str sCumulativeEmission
          else Cell.str (sCumulativeSp ++ a)) := by
  intro ls j a hj hmem
  rw [renameDups, renameDupsAux_getElem?, hj]
  simp only [Option.map_some']
  have hcond : Cell.str a ∈ ([] : List Cell) ∨ Cell.str a ∈ ls.take j :=
    Or.inr hmem
  rw [if_pos hcond]
  congr 1
  rw [renameCell]
  by_cases ha : a = sCumulative
  · subst ha; simp
  · have hne : ¬(Cell.str a = Cell.str sCumulative) := by
      intro h; exact ha (Cell.str.inj h)
    rw [if_neg hne, if_neg ha]
    simp [cellToStr]

/-- Witness for C3: the repeated "Team" header at position 2 becomes
"Cumulative Team". -/
theorem c3_witness :
    (renameDups exH3)[2]? =
      some (if sTeam = sCumulative then Cell.str sCumulativeEmission
        else Cell.str (sCumulativeSp ++ sTeam)) :=
  c3_duplicate_rename exH3 2 sTeam (by decide) (by decide)

/-- C2: with a period length L of 3 or 12 and a 1-based period index P, the
aggregation window resolves the anchor month P*L, locates the first row whose
Month equals it, and covers exactly the rows from max(0, idx-(L-1)) through
idx inclusive: every column is sliced to that range, the window has at most L
rows (exactly L once idx ≥ L-1, clamped shorter near the start rather than
failing), and its last row is the anchor row. -/
theorem c2_anchored_window :
    ∀ (t : QTable) (L P idx n : Nat),
      (L = 3 ∨ L = 12) →
      (∀ p ∈ t, p.2.length = n) →
      monthIdx t ((P * L : ℕ) : ℚ) = some idx →
      ∃ w, periodWindow t L P = Except.ok w ∧
        (tfind t sMonth)[idx]? = some ((P * L : ℕ) : ℚ) ∧
        (∀ j, j < idx → ∀ y, (tfind t sMonth)[j]? = some y →
          y ≠ ((P * L : ℕ) : ℚ)) ∧
        (∀ p ∈ w, p.2.length = idx + 1 - (idx - (L - 1))) ∧
        idx + 1 - (idx - (L - 1)) ≤ L ∧
        (L - 1 ≤ idx → idx + 1 - (idx - (L - 1)) = L) ∧
        (∀ (c : String) (j : Nat), j < idx + 1 - (idx - (L - 1)) →
          (tfind w c)[j]? = (tfind t c)[idx - (L - 1) + j]?) ∧
        (tfind w sMonth).getLast? = some ((P * L : ℕ) : ℚ) := by
  intro t L P idx n hL hrect hidx
  have hL1 : 1 ≤ L := by rcases hL with h | h <;> omega
  rw [monthIdx] at hidx
  obtain ⟨hlen, ⟨x, hx, hpx⟩, hearlier⟩ := findIdxQ_spec _ _ _ hidx
  have hxeq : x = ((P * L : ℕ) : ℚ) := of_decide_eq_true hpx
  subst hxeq
  have hmonthlen : (tfind t sMonth).length = n := by
    cases hsg : sget t sMonth with
    | none =>
        exact absurd hlen (by simp [tfind, hsg])
    | some v =>
        have hm := sget_mem t sMonth v hsg
        have hv := hrect _ hm
        simpa [tfind, hsg] using hv
  have hidxn : idx < n := hmonthlen ▸ hlen
  refine ⟨rowsSlice t (idx - (L - 1)) idx, ?_, hx, ?_, ?_, ?_, ?_, ?_, ?_⟩
  · rw [periodWindow, monthIdx, hidx]
  · exact fun j hj y hy => of_decide_eq_false (hearlier j hj y hy)
  · intro p hp
    simp only [rowsSlice] at hp
    obtain ⟨q, hq, rfl⟩ := List.mem_map.1 hp
    simp only [List.length_take, List.length_drop]
    rw [hrect q hq]
    omega
  · omega
  · intro h; omega
  · intro c j hj
    rw [tfind_rowsSlice, List.getElem?_take, if_pos hj, List.getElem?_drop]
  · rw [tfind_rowsSlice, List.getLast?_eq_getElem?]
    have hlen2 : (((tfind t sMonth).drop (idx - (L - 1))).take
        (idx + 1 - (idx - (L - 1)))).length = idx + 1 - (idx - (L - 1)) := by
      simp only [List.length_take, List.length_drop, hmonthlen]
      omega
    rw [hlen2, List.getElem?_take, if_pos (by omega), List.getElem?_drop,
      show idx - (L - 1) + (idx + 1 - (idx - (L - 1)) - 1) = idx from by omega, hx]

/-- Witness for C2 at the concrete table exT1 with quarter 1 (anchor month 3
found at row 3). -/
theorem c2_witness :
    ∃ w, periodWindow exT1 3 1 = Except.ok w ∧
      (tfind exT1 sMonth)[3]? = some ((1 * 3 : ℕ) : ℚ) ∧
      (∀ j, j < 3 → ∀ y, (tfind exT1 sMonth)[j]? = some y →
        y ≠ ((1 * 3 : ℕ) : ℚ)) ∧
      (∀ p ∈ w, p.2.length = 3 + 1 - (3 - (3 - 1))) ∧
      3 + 1 - (3 - (3 - 1)) ≤ 3 ∧
      (3 - 1 ≤ 3 → 3 + 1 - (3 - (3 - 1)) = 3) ∧
      (∀ (c : String) (j : Nat), j < 3 + 1 - (3 - (3 - 1)) →
        (tfind w c)[j]? = (tfind exT1 c)[3 - (3 - 1) + j]?) ∧
      (tfind w sMonth).getLast? = some ((1 * 3 : ℕ) : ℚ) :=
  c2_anchored_window exT1 3 1 3 4 (Or.inl rfl) (by decide)
    (of_decide_eq_true (by with_unfolding_all rfl))

/-- C1 (amended): over any aggregation window, a ratio/cumulative-running-
total column (name containing "Circulating Supply %", or "Cumulative" without
the "Cumulative "-prefix form) takes the window's last row's value; a column
that is neither ratio-classified nor excluded takes the sum over the window;
but columns whose names contain "Month", "Date" or the "Cumulative " flow
prefix (and are not ratio-classified) are omitted from the aggregate
altogether; for the quarterly aggregate, a summed column over a 3-row window
is exactly the sum of the 3 monthly values. -/
theorem c1_amended :
    (∀ (t w : QTable) (out : List (String × ℚ)),
      aggWindow t w = Except.ok out → ∀ c : String, c ∈ t.map (fun p => p.1) →
        (isCircCol c = true → sget out c = (tfind w c).getLast?) ∧
        (isCircCol c = false → isMonthlyCol c = true →
          sget out c = some (pdSumQ (tfind w c))) ∧
        (isCircCol c = false → isMonthlyCol c = false → sget out c = none)) ∧
    (∀ (t : QTable) (P : Nat) (out : List (String × ℚ)),
      aggQuarterly t P = Except.ok out →
      ∃ w, periodWindow t 3 P = Except.ok w ∧
        ∀ c : String, c ∈ t.map (fun p => p.1) → isCircCol c = false →
          isMonthlyCol c = true → ∀ a b d : ℚ, tfind w c = [a, b, d] →
          sget out c = some (a + b + d)) := by
  have main : ∀ (t w : QTable) (out : List (String × ℚ)),
      aggWindow t w = Except.ok out → ∀ c : String, c ∈ t.map (fun p => p.1) →
        (isCircCol c = true → sget out c = (tfind w c).getLast?) ∧
        (isCircCol c = false → isMonthlyCol c = true →
          sget out c = some (pdSumQ (tfind w c))) ∧
        (isCircCol c = false → isMonthlyCol c = false → sget out c = none) := by
    intro t w out h c hcmem
    simp only [aggWindow] at h
    have hout := foldlM_circStep_ok w _ _ out h c
    have hs1 := sget_foldl_upsert (fun x => pdSumQ (tfind w x))
      (sumKeysOf (t.map (fun p => p.1))) [] c
    refine ⟨?_, ?_, ?_⟩
    · intro hcirc
      have hmemc : c ∈ circKeysOf (t.map (fun p => p.1)) :=
        List.mem_filter.2 ⟨hcmem, hcirc⟩
      rw [hout, if_pos hmemc]
    · intro hcirc hmon
      have hnotc : c ∉ circKeysOf (t.map (fun p => p.1)) := by
        intro hmem
        have := (List.mem_filter.1 hmem).2
        rw [hcirc] at this
        exact Bool.false_ne_true this
      have hnosub : hasSub c sCircSup = false := by
        by_contra hcon
        have hcs : hasSub c sCircSup = true := by
          cases hval : hasSub c sCircSup
          · exact absurd hval hcon
          · rfl
        have : isCircCol c = true := by simp [isCircCol, hcs]
        rw [hcirc] at this
        exact Bool.false_ne_true this
      have hsum : c ∈ sumKeysOf (t.map (fun p => p.1)) := by
        refine List.mem_filter.2 ⟨List.mem_filter.2 ⟨hcmem, hmon⟩, ?_⟩
        simp [hnosub]
      rw [hout, if_neg hnotc, hs1, if_pos hsum]
    · intro hcirc hmon
      have hnotc : c ∉ circKeysOf (t.map (fun p => p.1)) := by
        intro hmem
        have := (List.mem_filter.1 hmem).2
        rw [hcirc] at this
        exact Bool.false_ne_true this
      have hnots : c ∉ sumKeysOf (t.map (fun p => p.1)) := by
        intro hmem
        have := (List.mem_filter.1 (List.mem_filter.1 hmem).1).2
        rw [hmon] at this
        exact Bool.false_ne_true this
      rw [hout, if_neg hnotc, hs1, if_neg hnots]
      simp [sget]
  refine ⟨main, ?_⟩
  intro t P out h
  rw [aggQuarterly, aggPeriod] at h
  cases hw : periodWindow t 3 P with
  | error e =>
      rw [hw] at h
      exact absurd h (by simp [Except.bind])
  | ok w =>
      rw [hw] at h
      simp only [Except.bind] at h
      refine ⟨w, rfl, ?_⟩
      intro c hcmem hcirc hmon a b d htf
      have hv := (main t w out h c hcmem).2.1 hcirc hmon
      rw [hv, htf]
      simp [pdSumQ]

/-- Witness for C1 at the concrete table exT1 with its quarter-1 window. -/
theorem c1_witness :
    (isCircCol sTeam = true → sget exO1 sTeam = (tfind exW1 sTeam).getLast?) ∧
    (isCircCol sTeam = false → isMonthlyCol sTeam = true →
      sget exO1 sTeam = some (pdSumQ (tfind exW1 sTeam))) ∧
    (isCircCol sTeam = false → isMonthlyCol sTeam = false →
      sget exO1 sTeam = none) :=
  c1_amended.1 exT1 exW1 exO1
    (of_decide_eq_true (by with_unfolding_all rfl)) sTeam (by decide)

/-- Counterexample to C1 as stated: "Cumulative Team" is not ratio-classified,
so the claim requires its quarterly aggregate to be the sum over the window,
but the code omits the column from the aggregate entirely. -/
theorem c1_counterexample :
    aggQuarterly exT1 1 = Except.ok exO1 ∧
    sCumTeam ∈ exT1.map (fun p => p.1) ∧
    isCircCol sCumTeam = false ∧
    sget exO1 sCumTeam = none :=
  ⟨of_decide_eq_true (by with_unfolding_all rfl), by decide, by decide, by decide⟩

/-- C5 (amended): the aggregated row has one value per source column that is
either sum-classified (monthly, not "Circulating Supply %") or
ratio-classified; source columns containing "Month", "Date", or the
"Cumulative " prefix (and not ratio-classified) have no value in the
aggregate, so the output column set is a strict subset of the source's
whenever such columns exist. -/
theorem c5_amended :
    ∀ (t w : QTable) (out : List (String × ℚ)),
      aggWindow t w = Except.ok out → ∀ c : String,
      (c ∈ out.map (fun p => p.1) ↔
        c ∈ t.map (fun p => p.1) ∧
          ((isMonthlyCol c = true ∧ hasSub c sCircSup = false) ∨
            isCircCol c = true)) := by
  intro t w out h c
  simp only [aggWindow] at h
  rw [mem_keys_foldlM_circ w _ _ out h c, mem_keys_foldl_upsert]
  simp only [List.map_nil, List.not_mem_nil, or_false]
  constructor
  · rintro (hc | hs)
    · have := List.mem_filter.1 hc
      exact ⟨this.1, Or.inr this.2⟩
    · have h1 := List.mem_filter.1 hs
      have h2 := List.mem_filter.1 h1.1
      refine ⟨h2.1, Or.inl ⟨h2.2, ?_⟩⟩
      have := h1.2
      cases hval : hasSub c sCircSup
      · rfl
      · rw [hval] at this; exact absurd this (by simp)
  · rintro ⟨hmem, hcase | hcase⟩
    · refine Or.inr (List.mem_filter.2 ⟨List.mem_filter.2 ⟨hmem, hcase.1⟩, ?_⟩)
      simp [hcase.2]
    · exact Or.inl (List.mem_filter.2 ⟨hmem, hcase⟩)

/-- Witness for C5 at the concrete table exT1 with its quarter-1 window. -/
theorem c5_witness :
    sMonth ∈ exO1.map (fun p => p.1) ↔
      sMonth ∈ exT1.map (fun p => p.1) ∧
        ((isMonthlyCol sMonth = true ∧ hasSub sMonth sCircSup = false) ∨
          isCircCol sMonth = true) :=
  c5_amended exT1 exW1 exO1
    (of_decide_eq_true (by with_unfolding_all rfl)) sMonth

/-- Counterexample to C5 as stated: the source table has a "Month" column
(and a "Cumulative Team" column) but the aggregated row does not — the output
column set differs from the source column set. -/
theorem c5_counterexample :
    aggQuarterly exT1 1 = Except.ok exO1 ∧
    sMonth ∈ exT1.map (fun p => p.1) ∧
    sMonth ∉ exO1.map (fun p => p.1) :=
  ⟨of_decide_eq_true (by with_unfolding_all rfl), by decide, by decide⟩

/-- C7 (amended): the load is atomic — the first sheet whose normalization
raises aborts the whole load, no partial mapping is returned, and the report
is the fixed prefix "Error loading Excel file: " followed by the exception
text; the report does not include the offending sheet's name. -/
theorem c7_amended :
    ∀ (pre : List (String × DF)) (nm : String) (df : DF)
      (post : List (String × DF)) (e : String),
      (∀ p ∈ pre, ∃ r, applyProc p.1 p.2 = Except.ok r) →
      applyProc nm df = Except.error e →
      loadData (pre ++ (nm, df) :: post) = Except.error (sLoadPre ++ e) := by
  intro pre nm df post e hpre herr
  obtain ⟨l, hl⟩ := mapM_loader_ok pre hpre
  have hm : (pre ++ (nm, df) :: post).mapM
      (fun p => (applyProc p.1 p.2).map (fun d => (p.1, d))) =
      Except.error e := by
    rw [List.mapM_append, hl, List.mapM_cons, herr]
    simp [Except.map, Bind.bind, Except.bind]
  rw [loadData, hm]

/-- Witness for C7: a workbook whose only sheet is an empty Unlock sheet. -/
theorem c7_witness :
    loadData [(sUnlock, ([] : DF))] = Except.error (sLoadPre ++ sIlocErr) :=
  c7_amended [] sUnlock [] [] sIlocErr (by intro p hp; cases hp) (by decide)

/-- Counterexample to C7 as stated: the whole load does fail, but the failure
report is the generic loader message and does not name the offending sheet
"Unlock". -/
theorem c7_counterexample :
    loadData [(sUnlock, ([] : DF))] = Except.error (sLoadPre ++ sIlocErr) ∧
    hasSub (sLoadPre ++ sIlocErr) sUnlock = false := by
  exact ⟨by decide, by decide⟩

/-- C8 (amended): an Unlock sheet with 1 or 2 rows does NOT fail — it
silently yields an empty normalized table (every column is emptied by the
two-row header drop, then removed by the empty-column drop), provided the
degenerate all-date-duplicate header case does not empty the frame first; an
Unlock sheet with 0 rows raises the generic pandas IndexError, which is not
a descriptive, sheet-identified error. -/
theorem c8_amended :
    (∀ (raw : List (List Cell)) (hdr : List Cell) (r : Nat),
      headerOf raw = some hdr → hdr ≠ [] → (r = 1 ∨ r = 2) →
      (∀ col ∈ raw, col.length = r) →
      dropDupDates ((renameDups hdr).zip (raw.map (fun col => col.drop 2))) ≠ [] →
      unlockProcess raw = Except.ok []) ∧
    (∀ raw : List (List Cell), (∀ col ∈ raw, col.length = 0) →
      unlockProcess raw = Except.error sIlocErr) := by
  constructor
  · intro raw hdr r hh hne hr hlen hkeep
    have hempty : hdr.isEmpty = false := by
      cases hdr with
      | nil => exact absurd rfl hne
      | cons a l => rfl
    simp only [unlockProcess, hh, hempty, Bool.false_eq_true, if_false]
    have hc1 : ∀ p ∈ (renameDups hdr).zip (raw.map (fun col => col.drop 2)),
        p.2 = [] := by
      intro p hp
      have hmem := (List.of_mem_zip hp).2
      obtain ⟨col, hcol, hcol2⟩ := List.mem_map.1 hmem
      have hlc := hlen col hcol
      have : (col.drop 2).length = 0 := by
        rw [List.length_drop, hlc]
        omega
      rw [← hcol2]
      exact List.length_eq_zero.1 this
    have hc2 : ∀ p ∈ dropDupDates
        ((renameDups hdr).zip (raw.map (fun col => col.drop 2))), p.2 = [] := by
      intro p hp
      apply hc1
      rw [dropDupDates] at hp
      split at hp
      · exact (List.mem_filter.1 hp).1
      · exact hp
    rw [convDateCol]
    split
    · rw [convDate_empty_cells _ hc2]
      simp only [Bind.bind, Except.bind]
      cases hcols : dropDupDates
          ((renameDups hdr).zip (raw.map (fun col => col.drop 2))) with
      | nil => exact absurd hcols hkeep
      | cons p0 rest =>
          rw [renameFirstToMonth]
          simp only [Except.map]
          congr 1
          rw [dropEmptyCols]
          apply List.filter_eq_nil_iff.2
          intro q hq
          obtain ⟨q0, hq0, hq2⟩ := List.mem_map.1 hq
          have hq0e : q0.2 = [] := hc2 q0 (hcols ▸ hq0)
          have : q.2 = [] := by
            rw [← hq2]
            by_cases h0 : q0.1 = p0.1 <;> simp [h0, hq0e]
          simp [this, Cell.isEmptyC]
    · simp only [Except.bind]
      cases hcols : dropDupDates
          ((renameDups hdr).zip (raw.map (fun col => col.drop 2))) with
      | nil => exact absurd hcols hkeep
      | cons p0 rest =>
          rw [renameFirstToMonth]
          simp only [Except.map]
          congr 1
          rw [dropEmptyCols]
          apply List.filter_eq_nil_iff.2
          intro q hq
          obtain ⟨q0, hq0, hq2⟩ := List.mem_map.1 hq
          have hq0e : q0.2 = [] := hc2 q0 (hcols ▸ hq0)
          have : q.2 = [] := by
            rw [← hq2]
            by_cases h0 : q0.1 = p0.1 <;> simp [h0, hq0e]
          simp [this, Cell.isEmptyC]
  · intro raw h0
    cases raw with
    | nil => rfl
    | cons col raw2 =>
        have hcol : col = [] :=
          List.length_eq_zero.1 (h0 col (List.mem_cons_self _ _))
        subst hcol
        have hh : headerOf ([] :: raw2) = none := rfl
        simp only [unlockProcess, hh]

/-- Witness for C8: a 1-row Unlock sheet normalizes to the empty table, and
the all-empty sheet raises. -/
theorem c8_witness :
    unlockProcess wit8raw = Except.ok [] ∧
    unlockProcess [[], []] = Except.error sIlocErr :=
  ⟨c8_amended.1 wit8raw [Cell.str sMonth, Cell.str sValue] 1 (by decide)
      (by decide) (Or.inl rfl) (by decide) (by decide),
    c8_amended.2 [[], []] (by decide)⟩

/-- Counterexample to C8 as stated: this 2-row Unlock sheet (fewer than 3
rows) does not fail with a load error — normalization silently returns an
output table (the empty one). -/
theorem c8_counterexample : unlockProcess cex8raw = Except.ok [] := by
  decide

/-- C9 (amended): the duplicate-date drop removes columns BY LABEL — it drops
every column whose label occurs after the head of the date-label list; when
the date-labelled columns have pairwise distinct labels this keeps exactly
the first and drops the rest, and the spec's example header
[Month, Team, Team, Date, Date] normalizes to
[Month, Team, Cumulative Team, Date]; but when labels collide (for example
a raw "Cumulative Date" column next to two "Date" columns) the first
date column itself can be dropped. -/
theorem c9_amended :
    (∀ (cols : DF) (d : Cell × List Cell) (rest : List (Cell × List Cell)),
      cols.filter (fun p => isDateLbl p.1) = d :: rest →
      (d.1 :: rest.map (fun p => p.1)).Nodup →
      dropDupDates cols =
        cols.filter (fun p => !(isDateLbl p.1) || decide (p.1 = d.1))) ∧
    unlockProcess raw9 = Except.ok out9 := by
  constructor
  · intro cols d rest hfilter hnd
    rw [dropDupDates]
    simp only [hfilter, List.map_cons, List.length_cons]
    cases rest with
    | nil =>
        simp only [List.map_nil, List.length_nil, gt_iff_lt, Nat.lt_irrefl,
          if_false]
        symm
        apply List.filter_eq_self.2
        intro p hp
        by_cases hd : isDateLbl p.1
        · have hpin : p ∈ cols.filter (fun p => isDateLbl p.1) :=
            List.mem_filter.2 ⟨hp, hd⟩
          rw [hfilter] at hpin
          have : p = d := by simpa using hpin
          subst this
          simp
        · simp [hd]
    | cons r rest2 =>
        rw [if_pos (show (List.map (fun p => p.1) (r :: rest2)).length + 1 > 1
          by simp)]
        apply List.filter_congr
        intro p hp
        simp only [List.drop_succ_cons, List.drop_zero]
        by_cases hd : isDateLbl p.1
        · have hpin : p ∈ cols.filter (fun p => isDateLbl p.1) :=
            List.mem_filter.2 ⟨hp, hd⟩
          rw [hfilter] at hpin
          simp only [List.mem_cons] at hpin
          rcases hpin with hpd | hpr
          · subst hpd
            have hnotin : p.1 ∉ List.map (fun q => q.1) (r :: rest2) := by
              intro hmem
              exact (List.nodup_cons.1 hnd).1 (by simpa using hmem)
            rw [decide_eq_true hnotin, hd]
            simp
          · have hin : p.1 ∈ List.map (fun q => q.1) (r :: rest2) :=
              List.mem_map.2 ⟨p, List.mem_cons.2 hpr, rfl⟩
            have hne : ¬(p.1 = d.1) := by
              intro he
              exact (List.nodup_cons.1 hnd).1 (by rw [← he]; simpa using hin)
            rw [decide_eq_false (fun hno => hno hin), hd, decide_eq_false hne]
            simp
        · have hnotin : p.1 ∉ List.map (fun q => q.1) (r :: rest2) := by
            intro hmem
            simp only [List.mem_map] at hmem
            obtain ⟨q, hq, hq1⟩ := hmem
            have hqin : q ∈ cols.filter (fun p => isDateLbl p.1) := by
              rw [hfilter]
              exact List.mem_cons_of_mem _ hq
            have hqd := (List.mem_filter.1 hqin).2
            rw [hq1] at hqd
            exact hd hqd
          have hdf : isDateLbl p.1 = false := by
            cases hv : isDateLbl p.1
            · rfl
            · exact absurd hv hd
          rw [decide_eq_true hnotin, hdf]
          simp
  · decide

/-- Witness for C9 on a frame with two distinct date-labelled columns. -/
theorem c9_witness :
    dropDupDates cols9 =
      cols9.filter (fun p => !(isDateLbl p.1) ||
        decide (p.1 = (Cell.str sDate, ([] : List Cell)).1)) :=
  c9_amended.1 cols9 (Cell.str sDate, []) [(Cell.str sCumDate, [])]
    (by decide) (by decide)

/-- Counterexample to C9 as stated: after renaming, rawP9 has three columns
whose names contain "Date", yet the normalized output keeps NONE of them —
the first date column is dropped too, because the drop works by label and
the renamed duplicate collides with the pre-existing "Cumulative Date". -/
theorem c9_counterexample :
    unlockProcess rawP9 = Except.ok [(Cell.str sMonth, [Cell.num 0, Cell.num 1])] ∧
    ((renameDups [Cell.str sMonth, Cell.str sCumDate, Cell.str sDate,
      Cell.str sDate]).filter (fun c => isDateLbl c)).length = 3 ∧
    (∀ p ∈ [(Cell.str sMonth, [Cell.num 0, Cell.num 1])], isDateLbl p.1 = false) := by
  exact ⟨by decide, by decide, by decide⟩

/-- C4 (amended): in Yield-sheet normalization, every float-dtype non-Date
column is renamed to the label computed from the column's HEADER-ROW value
(the value that became the column label) scaled by 100 and rounded to zero
decimals with a "%" suffix — not from the last row's value — and every cell
is rewritten as the string str(round(value*100, 3)) + "%". -/
theorem c4_amended :
    ∀ (raw : List (List Cell)) (hdr : List Cell),
      headerOf raw = some hdr → hdr ≠ [] →
      (∀ col ∈ raw, dtypeFloat col = true) →
      (∀ c ∈ hdr, ∃ q, c = Cell.num q) →
      ((hdr.map fmtCell).Nodup) →
      (∀ c ∈ hdr, fmtCell c ≠ Cell.str sDate) →
      (∀ col ∈ raw, 2 ≤ col.length) →
      yieldProcess raw =
        Except.ok (List.zipWith
          (fun c col => (fmtCell c, (col.drop 1).map rewriteCell)) hdr raw) := by
  intro raw hdr hh hne hfloat hnum hndf hdate hlen2
  have hlenhr : hdr.length = raw.length := headerOf_length raw hdr hh
  have hnd : hdr.Nodup := List.Nodup.of_map fmtCell hndf
  have hempty : hdr.isEmpty = false := by
    cases hdr with
    | nil => exact absurd rfl hne
    | cons a l => rfl
  simp only [yieldProcess, hh, hempty, Bool.false_eq_true, if_false]
  set base : List YCol :=
    hdr.zip ((raw.map dtypeFloat).zip (raw.map (fun c => c.drop 1))) with hbase
  have hbl : base.map (fun p => p.1) = hdr := by
    rw [hbase]
    apply List.map_fst_zip
    rw [List.length_zip, List.length_map, List.length_map]
    simp [hlenhr]
  have hb1 : ∀ p ∈ base, ∃ q, p.1 = Cell.num q := by
    intro p hp
    have hpin : p.1 ∈ hdr := by
      rw [← hbl]
      exact List.mem_map.2 ⟨p, hp, rfl⟩
    exact hnum p.1 hpin
  have hb2 : ∀ p ∈ base, p.2.1 = true := by
    intro p hp
    rw [hbase] at hp
    have h2 : (p.2.1, p.2.2) ∈
        (raw.map dtypeFloat).zip (raw.map (fun c => c.drop 1)) :=
      (List.of_mem_zip hp).2
    have h3 : p.2.1 ∈ raw.map dtypeFloat := (List.of_mem_zip h2).1
    obtain ⟨col, hcol, hcoleq⟩ := List.mem_map.1 h3
    rw [← hcoleq]
    exact hfloat col hcol
  have hconv : yConvDate base = Except.ok base := by
    rw [yConvDate]
    have hany : base.any (fun p => decide (p.1 = Cell.str sDate)) = false := by
      apply List.any_eq_false.2
      intro p hp
      obtain ⟨q, hq⟩ := hb1 p hp
      simp [hq]
    rw [hany]
    simp
  rw [hconv]
  simp only [Except.bind]
  have h1 := yRename_fold base [] hdr hbl.symm (by intro p hp; cases hp)
    hb1 hb2 (by rw [hbl]; exact hnd)
  simp only [List.nil_append] at h1
  rw [h1]
  simp only [Except.bind]
  have hst2l : (base.map (fun p => (fmtCell p.1, p.2))).map (fun p => p.1) =
      hdr.map fmtCell := by
    rw [List.map_map]
    rw [show ((fun (p : YCol) => p.1) ∘ fun p => (fmtCell p.1, p.2)) =
      (fun (p : YCol) => fmtCell p.1) from rfl]
    rw [show (fun (p : YCol) => fmtCell p.1) =
      (fmtCell ∘ fun (p : YCol) => p.1) from rfl]
    rw [← List.map_map, hbl]
  have hdate2 : ∀ p ∈ base.map (fun p => (fmtCell p.1, p.2)),
      ¬p.1 = Cell.str sDate := by
    intro p hp
    obtain ⟨p0, hp0, hpe⟩ := List.mem_map.1 hp
    have hpin : p0.1 ∈ hdr := by
      rw [← hbl]
      exact List.mem_map.2 ⟨p0, hp0, rfl⟩
    rw [← hpe]
    exact hdate p0.1 hpin
  have hflag2 : ∀ p ∈ base.map (fun p => (fmtCell p.1, p.2)), p.2.1 = true := by
    intro p hp
    obtain ⟨p0, hp0, hpe⟩ := List.mem_map.1 hp
    rw [← hpe]
    exact hb2 p0 hp0
  have h2 := yRewrite_fold (base.map (fun p => (fmtCell p.1, p.2))) []
    ((base.map (fun p => (fmtCell p.1, p.2))).map (fun p => p.1)) rfl
    hdate2 hflag2 (by simp only [List.nil_append]; rw [hst2l]; exact hndf)
  simp only [List.nil_append] at h2
  rw [h2]
  simp only [Except.map]
  congr 1
  have hcomp : ((base.map (fun p => (fmtCell p.1, p.2))).map
      (fun p => (p.1, p.2.1, p.2.2.map rewriteCell))).map
      (fun p => (p.1, p.2.2)) =
      base.map (fun p => (fmtCell p.1, p.2.2.map rewriteCell)) := by
    rw [List.map_map, List.map_map]
    apply List.map_congr_left
    intro p _
    rfl
  rw [hcomp]
  have hdrop : dropEmptyCols
      (base.map (fun p => (fmtCell p.1, p.2.2.map rewriteCell))) =
      base.map (fun p => (fmtCell p.1, p.2.2.map rewriteCell)) := by
    rw [dropEmptyCols]
    apply List.filter_eq_self.2
    intro p hp
    obtain ⟨p0, hp0, hpe⟩ := List.mem_map.1 hp
    rw [hbase] at hp0
    have h2m : (p0.2.1, p0.2.2) ∈
        (raw.map dtypeFloat).zip (raw.map (fun c => c.drop 1)) :=
      (List.of_mem_zip hp0).2
    have h3m : p0.2.2 ∈ raw.map (fun c => c.drop 1) := (List.of_mem_zip h2m).2
    obtain ⟨col, hcol, hceq⟩ := List.mem_map.1 h3m
    have hlend : 1 ≤ p0.2.2.length := by
      rw [← hceq, List.length_drop]
      have := hlen2 col hcol
      omega
    obtain ⟨y, hy⟩ := List.exists_mem_of_ne_nil p0.2.2
      (by intro hnil; rw [hnil] at hlend; simp at hlend)
    have hycol : y ∈ col := by
      apply List.mem_of_mem_drop
      rw [hceq]
      exact hy
    have hykind : y.isNumC = true ∨ y.isEmptyC = true := by
      have hf := hfloat col hcol
      rw [dtypeFloat, Bool.and_eq_true] at hf
      have hor := List.all_eq_true.1 hf.1 y hycol
      rw [Bool.or_eq_true] at hor
      exact hor
    have hrwy : (rewriteCell y).isEmptyC = false := by
      rcases hykind with h | h
      · cases y with
        | num q => rfl
        | empty => cases h
        | str s => cases h
        | dt a b => cases h
      · cases y with
        | empty => rfl
        | num q => rfl
        | str s => cases h
        | dt a b => cases h
    rw [← hpe]
    have hfalse : (p0.2.2.map rewriteCell).all Cell.isEmptyC = false := by
      apply List.all_eq_false.2
      exact ⟨rewriteCell y, List.mem_map.2 ⟨y, hy, rfl⟩, by rw [hrwy]; intro h; cases h⟩
    simp [hfalse]
  rw [hdrop, hbase]
  exact yzip_strip hdr raw

/-- Witness for C4: a single-column Yield sheet with header-row value 0.05
and data value 0.04 normalizes to label "5%" with cell "4.0%". -/
theorem c4_witness :
    yieldProcess exY4w =
      Except.ok (List.zipWith
        (fun c col => (fmtCell c, (col.drop 1).map rewriteCell))
        [Cell.num (1/20)] exY4w) :=
  c4_amended exY4w [Cell.num (1/20)]
    (of_decide_eq_true (by with_unfolding_all rfl))
    (of_decide_eq_true (by with_unfolding_all rfl))
    (of_decide_eq_true (by with_unfolding_all rfl))
    (fun c hc => ⟨1/20, by simpa using hc⟩)
    (of_decide_eq_true (by with_unfolding_all rfl))
    (of_decide_eq_true (by with_unfolding_all rfl))
    (of_decide_eq_true (by with_unfolding_all rfl))

/-- Counterexample to C4 as stated: the column's last-row value is 0.0825, so
the claim says the label is "8%", but the code computes it from the
header-row value 0.05, producing "5%"; the cell rewrite to "8.25%" does
match the claim. -/
theorem c4_counterexample :
    yieldProcess exY4 = Except.ok [(Cell.str s5p, [Cell.str s825p])] ∧
    Cell.str (pyFmt0 (100 * ((33 : ℚ)/400)) ++ sPct) = Cell.str s8p ∧
    s5p ≠ s8p :=
  ⟨of_decide_eq_true (by with_unfolding_all rfl),
   of_decide_eq_true (by with_unfolding_all rfl),
   by decide⟩

/-- C6 (amended): the normalized Unlock table's column names are unique
PROVIDED the header labels are plain strings, each label occurs at most
twice, no label already carries the "Cumulative " prefix, "Cumulative" and
"Emission" are not both repeated, and "Month" occurs only as the first
label; with a label occurring three or more times (or a collision with a
generated name) duplicate column names survive normalization. -/
theorem c6_amended :
    ∀ (raw : List (List Cell)) (hdr : List Cell) (out : DF),
      headerOf raw = some hdr →
      (∀ c ∈ hdr, ∃ s, c = Cell.str s) →
      (∀ c : Cell, hdr.count c ≤ 2) →
      (∀ s, Cell.str s ∈ hdr → chPre sCumulativeSp.data s.data = false) →
      ¬(2 ≤ hdr.count (Cell.str sCumulative) ∧
        2 ≤ hdr.count (Cell.str sEmissionW)) →
      (Cell.str sMonth ∈ hdr → hdr.head? = some (Cell.str sMonth)) →
      unlockProcess raw = Except.ok out →
      (out.map (fun p => p.1)).Nodup := by
  intro raw hdr out hh hstr hcount hpre hclash hMonth hproc
  cases hdr with
  | nil =>
      simp only [unlockProcess, hh, List.isEmpty_nil, if_true] at hproc
      cases hproc
  | cons h0 hrest =>
      simp only [unlockProcess, hh, List.isEmpty_cons, Bool.false_eq_true,
        if_false] at hproc
      set L1 := renameDups (h0 :: hrest) with hL1def
      set cols1 : DF := L1.zip (raw.map (fun c => c.drop 2)) with hc1def
      have hlenh : (h0 :: hrest).length = raw.length := headerOf_length _ _ hh
      have hlenL1 : L1.length = (h0 :: hrest).length := renameDups_length _
      have hfst1 : cols1.map (fun p => p.1) = L1 := by
        rw [hc1def]
        apply List.map_fst_zip
        rw [List.length_map]
        omega
      have hnd1 : L1.Nodup := by
        rw [hL1def, renameDups]
        apply renameDupsAux_nodup _ [] hstr hcount
        · intro x hx
          cases hx
        · exact hpre
        · intro hcl
          apply hclash
          obtain ⟨ha, hb⟩ := hcl
          constructor
          · rcases ha with ⟨h1, _⟩ | h1
            · cases h1
            · exact h1
          · rcases hb with ⟨h1, _⟩ | h1
            · cases h1
            · exact h1
      obtain ⟨q0, qrest, hc1⟩ : ∃ q0 qrest, cols1 = q0 :: qrest := by
        cases hc : cols1 with
        | nil =>
            rw [hc] at hfst1
            have hL1nil : L1 = [] := by simpa using hfst1.symm
            rw [hL1nil] at hlenL1
            simp at hlenL1
        | cons a b => exact ⟨a, b, rfl⟩
      have hq0lbl : q0.1 = h0 := by
        have h1 : cols1.map (fun p => p.1) = q0.1 :: qrest.map (fun p => p.1) := by
          rw [hc1]
          rfl
        rw [hfst1] at h1
        have h2 : L1[0]? = some h0 := by
          rw [hL1def, renameDups_head]
          simp
        rw [h1] at h2
        simpa using h2
      have hnd1c : (cols1.map (fun p => p.1)).Nodup := by
        rw [hfst1]
        exact hnd1
      obtain ⟨rest2, hc2⟩ := dropDupDates_head q0 qrest (by rw [← hc1]; exact hnd1c)
      have hnd2 : ((dropDupDates cols1).map (fun p => p.1)).Nodup :=
        List.Nodup.sublist (List.Sublist.map _ (dropDupDates_sublist cols1)) hnd1c
      cases hcv : convDateCol (dropDupDates cols1) with
      | error e =>
          rw [hcv] at hproc
          have h2 : (Except.error e : Except String DF) = Except.ok out := hproc
          cases h2
      | ok cols3 =>
          rw [hcv] at hproc
          have hproc2 : (renameFirstToMonth cols3).map dropEmptyCols =
              Except.ok out := hproc
          have hlbl3 : cols3.map (fun p => p.1) =
              (dropDupDates cols1).map (fun p => p.1) :=
            convDateCol_labels _ _ hcv
          have hnd3 : (cols3.map (fun p => p.1)).Nodup := by
            rw [hlbl3]
            exact hnd2
          have hlbl3h : cols3.map (fun p => p.1) =
              q0.1 :: rest2.map (fun p => p.1) := by
            rw [hlbl3, hc1, hc2]
            rfl
          obtain ⟨p0, rest3, hc3⟩ : ∃ p0 rest3, cols3 = p0 :: rest3 := by
            cases cols3 with
            | nil => simp at hlbl3h
            | cons a b => exact ⟨a, b, rfl⟩
          have hp0 : p0.1 = q0.1 := by
            rw [hc3] at hlbl3h
            simpa using congrArg List.head? hlbl3h
          have hrn : renameFirstToMonth cols3 = Except.ok
              (cols3.map (fun p => if p.1 = p0.1 then (Cell.str sMonth, p.2)
                else p)) := by
            rw [hc3]
            rfl
          rw [hrn] at hproc2
          have hout : out = dropEmptyCols (cols3.map
              (fun p => if p.1 = p0.1 then (Cell.str sMonth, p.2) else p)) := by
            have h2 : Except.ok (dropEmptyCols (cols3.map
                (fun p => if p.1 = p0.1 then (Cell.str sMonth, p.2) else p))) =
                Except.ok out := hproc2
            cases h2
            rfl
          have hMfact : ∀ l ∈ cols3.map (fun p => p.1),
              l = Cell.str sMonth → l = p0.1 := by
            intro l hl hlM
            have hl1 : l ∈ L1 := by
              rw [hlbl3] at hl
              have hmem := (List.Sublist.map (fun p => p.1)
                (dropDupDates_sublist cols1)).subset hl
              rw [hfst1] at hmem
              exact hmem
            rw [hL1def, renameDups] at hl1
            rcases mem_renameDupsAux (h0 :: hrest) [] l hl1 with
              ⟨hin, _⟩ | ⟨d, _, hld, _⟩
            · have hhd := hMonth (hlM ▸ hin)
              have hh0 : h0 = Cell.str sMonth := Option.some_inj.1 hhd
              rw [hp0, hq0lbl, hh0, hlM]
            · obtain ⟨t, ht⟩ := renameCell_shape d
              rw [ht] at hld
              have hne : Cell.str sMonth ≠ Cell.str (sCumulativeSp ++ t) :=
                noPre_ne sMonth t (by decide)
              exact absurd (hlM ▸ hld) hne
          have hrlbl : (cols3.map (fun p => if p.1 = p0.1 then
              (Cell.str sMonth, p.2) else p)).map (fun p => p.1) =
              (cols3.map (fun p => p.1)).map
                (fun l => if l = p0.1 then Cell.str sMonth else l) := by
            rw [List.map_map, List.map_map]
            apply List.map_congr_left
            intro p _
            simp only [Function.comp]
            by_cases hp : p.1 = p0.1 <;> simp [hp]
          have hndr : ((cols3.map (fun p => if p.1 = p0.1 then
              (Cell.str sMonth, p.2) else p)).map (fun p => p.1)).Nodup := by
            rw [hrlbl]
            apply List.Nodup.map_on ?_ hnd3
            intro x hx y hy hxy
            by_cases hxp : x = p0.1
            · by_cases hyp2 : y = p0.1
              · rw [hxp, hyp2]
              · rw [if_pos hxp, if_neg hyp2] at hxy
                exact absurd (hMfact y hy hxy.symm) hyp2
            · by_cases hyp2 : y = p0.1
              · rw [if_neg hxp, if_pos hyp2] at hxy
                exact absurd (hMfact x hx hxy) hxp
              · rw [if_neg hxp, if_neg hyp2] at hxy
                exact hxy
          rw [hout, dropEmptyCols]
          exact List.Nodup.sublist (List.Sublist.map _ (List.filter_sublist _))
            hndr

/-- Witness for C6 on a sheet whose header is [Month, Team, Team]. -/
theorem c6_witness : (outW6.map (fun p => p.1)).Nodup :=
  c6_amended rawW6 [Cell.str sMonth, Cell.str sTeam, Cell.str sTeam] outW6
    (by decide)
    (by
      intro c hc
      rcases (by simpa using hc :
        c = Cell.str sMonth ∨ c = Cell.str sTeam ∨ c = Cell.str sTeam) with
        rfl | rfl | rfl
      · exact ⟨sMonth, rfl⟩
      · exact ⟨sTeam, rfl⟩
      · exact ⟨sTeam, rfl⟩)
    (by
      intro c
      simp only [List.count_cons, List.count_nil]
      by_cases h1 : Cell.str sMonth = c
      · by_cases h2 : Cell.str sTeam = c
        · exact absurd (h2.trans h1.symm) (by decide)
        · simp [h1, h2]
      · by_cases h2 : Cell.str sTeam = c
        · simp [h1, h2]
        · simp [h1, h2])
    (by
      intro s hs
      rcases (by simpa using hs :
        Cell.str s = Cell.str sMonth ∨ Cell.str s = Cell.str sTeam ∨
          Cell.str s = Cell.str sTeam) with h | h | h
      · rw [Cell.str.inj h]; decide
      · rw [Cell.str.inj h]; decide
      · rw [Cell.str.inj h]; decide)
    (by decide)
    (by decide)
    (by decide)

/-- Counterexample to C6 as stated: a header label occurring three times
leaves two columns both named "Cumulative Team" in the normalized table. -/
theorem c6_counterexample :
    unlockProcess raw6 = Except.ok out6 ∧
    ¬(out6.map (fun p => p.1)).Nodup :=
  ⟨by decide, by decide⟩

end CD
